import Mathlib

/-!
Verification of the event-registry collector (`collector/__main__.py`).

The development shallowly embeds the parts of the program that the
specification talks about:

* a JSON value model with a serializer (`Json.render`, modelling the default
  `json.dump` output: separators `", "` and `": "`, escaped strings, integer
  numerals) and a parser (`loads`, modelling `json.loads` on such documents);
* a file-system model (`FileSystem`) with the path helpers
  (`normpath`, `create_folder_directory`, modelling `os.path`/`os.makedirs`
  on a POSIX separator) and the result-sink functions
  (`save_as_array`, `save_as_separate_line`, `save_result_in_file`);
* the `URI` keyword/identifier pair with its Python `==`/`!=` dispatch;
* the collector entry points `get_articles`, `get_events`,
  `get_event_articles` and `get_event_articles_from_file`, with the external
  Event Registry SDK supplied as an oracle (`ER`): label resolution and query
  execution are opaque collaborators of the program.

Strings manipulated at the character level (file contents, lines, paths,
event identifiers) are represented as `List Char`; opaque string-valued
parameters (labels, sort keys, formats) stay `String`.  Machine-level
simplifications are noted next to the definitions they concern.
-/

/-! ## Characters and line handling -/

/-- Whitespace as accepted between JSON tokens by `json.loads`. -/
def isJsonWs (c : Char) : Bool :=
  c = ' ' ∨ c = '\t' ∨ c = '\n' ∨ c = '\r'

/-- Drop leading JSON whitespace. -/
def skipWs : List Char → List Char
  | [] => []
  | c :: cs => if isJsonWs c then skipWs cs else c :: cs

/-- Whitespace stripped by Python `str.strip()` (ASCII subset). -/
def isPySpace (c : Char) : Bool :=
  c = ' ' ∨ c = '\t' ∨ c = '\n' ∨ c = '\r' ∨ c = '\x0b' ∨ c = '\x0c'

/-- Python `str.strip()`: remove leading and trailing whitespace. -/
def pstrip (s : List Char) : List Char :=
  ((s.dropWhile isPySpace).reverse.dropWhile isPySpace).reverse

/-- Auxiliary for `readlines`: `acc` holds the current (reversed) line. -/
def readlinesAux : List Char → List Char → List (List Char)
  | acc, [] => if acc = [] then [] else [acc.reverse]
  | acc, c :: rest =>
    if c = '\n' then (acc.reverse ++ ['\n']) :: readlinesAux [] rest
    else readlinesAux (c :: acc) rest

/-- Python `file.readlines()`: split into lines, each keeping its trailing
newline; an empty file yields no lines. -/
def readlines (content : List Char) : List (List Char) :=
  readlinesAux [] content

/-! ## JSON values

`Json` is a mutual inductive (rather than nesting `List`) so that every
function on it is compiled by structural recursion and evaluates inside the
kernel. -/

mutual

inductive Json where
  | null : Json
  | bool (b : Bool) : Json
  | num (n : Int) : Json
  | str (s : String) : Json
  | arr (xs : JsonList) : Json
  | obj (ms : JsonMembers) : Json

inductive JsonList where
  | nil : JsonList
  | cons (hd : Json) (tl : JsonList) : JsonList

inductive JsonMembers where
  | nil : JsonMembers
  | cons (key : String) (val : Json) (tl : JsonMembers) : JsonMembers

end

/-- Last binding of a key in an object body: `json.loads` builds a `dict`,
where a later duplicate key overrides an earlier one. -/
def lookupLast (k : String) : JsonMembers → Option Json
  | JsonMembers.nil => none
  | JsonMembers.cons k2 v rest =>
    match lookupLast k rest with
    | some r => some r
    | none => if k2 = k then some v else none

/-- Python `obj[k]` for a parsed JSON document: a value on objects holding
the key, nothing otherwise (where Python raises `KeyError`/`TypeError`). -/
def Json.getField (j : Json) (k : String) : Option Json :=
  match j with
  | Json.obj ms => lookupLast k ms
  | _ => none

/-! ## Serialization (`json.dump` with default options) -/

/-- Decimal digit character. -/
def digitChar (d : Nat) : Char := Char.ofNat (48 + d)

/-- Digits of `n`, most significant first, accumulated onto `acc`; the fuel
(first argument) bounds the number of divisions. -/
def natDigitsAux : Nat → Nat → List Char → List Char
  | 0, _, acc => acc
  | fuel + 1, n, acc =>
    if n = 0 then acc
    else natDigitsAux fuel (n / 10) (digitChar (n % 10) :: acc)

/-- Decimal numeral of a natural number. -/
def natDigits (n : Nat) : List Char :=
  if n = 0 then ['0'] else natDigitsAux n n []

/-- Python `repr` of an integer. -/
def intRender : Int → List Char
  | Int.ofNat n => natDigits n
  | Int.negSucc n => '-' :: natDigits (n + 1)

/-- String escaping as performed by `json.dump` for the characters the
program can feed it (quote, backslash and common control characters; the
`\uXXXX` form for other code points is not modelled). -/
def escapeChar (c : Char) : List Char :=
  if c = '\"' then ['\\', '\"']
  else if c = '\\' then ['\\', '\\']
  else if c = '\n' then ['\\', 'n']
  else if c = '\r' then ['\\', 'r']
  else if c = '\t' then ['\\', 't']
  else [c]

/-- Escape every character of a string body. -/
def escapeList : List Char → List Char
  | [] => []
  | c :: cs => escapeChar c ++ escapeList cs

/-- A JSON string literal: quoted, escaped body. -/
def renderStr (s : String) : List Char :=
  '\"' :: escapeList s.data ++ ['\"']

mutual

/-- `json.dump` with its default separators `", "` and `": "`. -/
def Json.render : Json → List Char
  | Json.null => 'n' :: 'u' :: 'l' :: 'l' :: []
  | Json.bool b => if b then 't' :: 'r' :: 'u' :: 'e' :: [] else 'f' :: 'a' :: 'l' :: 's' :: 'e' :: []
  | Json.num n => intRender n
  | Json.str s => renderStr s
  | Json.arr xs => '[' :: renderList xs ++ [']']
  | Json.obj ms => '{' :: renderMembers ms ++ ['}']

/-- Comma-separated renderings of array elements. -/
def renderList : JsonList → List Char
  | JsonList.nil => []
  | JsonList.cons x JsonList.nil => Json.render x
  | JsonList.cons x (JsonList.cons y rest) =>
    Json.render x ++ ',' :: ' ' :: renderList (JsonList.cons y rest)

/-- Comma-separated `"key": value` renderings of object members. -/
def renderMembers : JsonMembers → List Char
  | JsonMembers.nil => []
  | JsonMembers.cons k v JsonMembers.nil => renderStr k ++ ':' :: ' ' :: Json.render v
  | JsonMembers.cons k v (JsonMembers.cons k2 v2 rest) =>
    renderStr k ++ ':' :: ' ' :: Json.render v ++
      ',' :: ' ' :: renderMembers (JsonMembers.cons k2 v2 rest)

end

/-! ## Parsing (`json.loads`) -/

/-- Inverse of the escapes emitted above, plus the other single-character
escapes `json.loads` accepts. -/
def unescapeChar (c : Char) : Option Char :=
  if c = '\"' then some '\"'
  else if c = '\\' then some '\\'
  else if c = '/' then some '/'
  else if c = 'n' then some '\n'
  else if c = 'r' then some '\r'
  else if c = 't' then some '\t'
  else if c = 'b' then some (Char.ofNat 8)
  else if c = 'f' then some (Char.ofNat 12)
  else none

/-- Parse a string body after the opening quote; `acc` holds the characters
read so far, reversed. -/
def parseStrAux : List Char → List Char → Option (String × List Char)
  | _, [] => none
  | acc, c :: rest =>
    if c = '\"' then some (String.mk acc.reverse, rest)
    else if c = '\\' then
      match rest with
      | [] => none
      | e :: rest2 =>
        match unescapeChar e with
        | some c2 => parseStrAux (c2 :: acc) rest2
        | none => none
    else parseStrAux (c :: acc) rest

/-- Longest digit run at the head of the input. -/
def takeDigits : List Char → (List Char × List Char)
  | [] => ([], [])
  | c :: rest =>
    if c.isDigit then
      let p := takeDigits rest
      (c :: p.1, p.2)
    else ([], c :: rest)

/-- Value of a digit character. -/
def digitVal (c : Char) : Nat := c.toNat - 48

/-- Numeric value of a digit run. -/
def digitsToNat (ds : List Char) : Nat :=
  ds.foldl (fun acc c => acc * 10 + digitVal c) 0

/-- Parse an (integer) JSON number; the program never feeds fractional
numbers back through `json.loads`, so floats are not modelled. -/
def parseNum (cs : List Char) : Option (Json × List Char) :=
  if cs.head? = some '-' then
    let p := takeDigits cs.tail
    if p.1 = [] then none else some (Json.num (-(digitsToNat p.1 : Int)), p.2)
  else
    let p := takeDigits cs
    if p.1 = [] then none else some (Json.num (Int.ofNat (digitsToNat p.1)), p.2)

/-- Drop an expected literal continuation (`rue`, `alse`, `ull`). -/
def dropLit : List Char → List Char → Option (List Char)
  | [], cs => some cs
  | _ :: _, [] => none
  | p :: ps, c :: cs => if c = p then dropLit ps cs else none

mutual

/-- Parse one JSON value (fuel-bounded recursive descent). -/
def parseVal : Nat → List Char → Option (Json × List Char)
  | 0, _ => none
  | fuel + 1, cs =>
    match skipWs cs with
    | [] => none
    | c :: rest =>
      if c = '\"' then
        match parseStrAux [] rest with
        | some p => some (Json.str p.1, p.2)
        | none => none
      else if c = '{' then
        let r2 := skipWs rest
        if r2.head? = some '}' then some (Json.obj JsonMembers.nil, r2.tail)
        else
          match parseMembers fuel r2 with
          | some p => some (Json.obj p.1, p.2)
          | none => none
      else if c = '[' then
        let r2 := skipWs rest
        if r2.head? = some ']' then some (Json.arr JsonList.nil, r2.tail)
        else
          match parseItems fuel r2 with
          | some p => some (Json.arr p.1, p.2)
          | none => none
      else if c = 't' then
        match dropLit ['r', 'u', 'e'] rest with
        | some r => some (Json.bool true, r)
        | none => none
      else if c = 'f' then
        match dropLit ['a', 'l', 's', 'e'] rest with
        | some r => some (Json.bool false, r)
        | none => none
      else if c = 'n' then
        match dropLit ['u', 'l', 'l'] rest with
        | some r => some (Json.null, r)
        | none => none
      else parseNum (c :: rest)

/-- Parse the elements of a non-empty array up to the closing bracket. -/
def parseItems : Nat → List Char → Option (JsonList × List Char)
  | 0, _ => none
  | fuel + 1, cs =>
    match parseVal fuel cs with
    | none => none
    | some p =>
      match skipWs p.2 with
      | [] => none
      | c :: r2 =>
        if c = ',' then
          match parseItems fuel r2 with
          | some q => some (JsonList.cons p.1 q.1, q.2)
          | none => none
        else if c = ']' then some (JsonList.cons p.1 JsonList.nil, r2)
        else none

/-- Parse the members of a non-empty object up to the closing brace. -/
def parseMembers : Nat → List Char → Option (JsonMembers × List Char)
  | 0, _ => none
  | fuel + 1, cs =>
    match skipWs cs with
    | [] => none
    | c :: r =>
      if c = '\"' then
        match parseStrAux [] r with
        | none => none
        | some kp =>
          match skipWs kp.2 with
          | [] => none
          | c3 :: r3 =>
            if c3 = ':' then
              match parseVal fuel r3 with
              | none => none
              | some vp =>
                match skipWs vp.2 with
                | [] => none
                | c5 :: r5 =>
                  if c5 = ',' then
                    match parseMembers fuel r5 with
                    | some q => some (JsonMembers.cons kp.1 vp.1 q.1, q.2)
                    | none => none
                  else if c5 = '}' then
                    some (JsonMembers.cons kp.1 vp.1 JsonMembers.nil, r5)
                  else none
            else none
      else none

end

/-- `json.loads`: parse a full document, tolerating surrounding whitespace
and rejecting trailing garbage.  The fuel bound is generous enough for any
input (each recursion step consumes input). -/
def loads (cs : List Char) : Option Json :=
  match parseVal (2 * cs.length + 2) cs with
  | some p => if skipWs p.2 = [] then some p.1 else none
  | none => none

/-! ## File system and `os.path` helpers

The file system is a finite map from paths to contents plus a set of
existing directories; the process works on a POSIX separator (`/`).
Python exceptions surface as `Except.error` with a `PyErr` tag. -/

inductive PyErr where
  | fileNotFound (path : List Char)
  | jsonDecodeError
  | keyError (k : String)
  | attributeError
  | typeError
  | eventIdsFileMissing
  | eventIdsFileEmpty
deriving DecidableEq

structure FileSystem where
  files : List (List Char × List Char)
  dirs : List (List Char)
deriving DecidableEq

/-- Content of the file at `p`, when one exists. -/
def readFile (fs : FileSystem) (p : List Char) : Option (List Char) :=
  (fs.files.find? (fun e => e.1 == p)).map (fun e => e.2)

/-- `os.path.isfile`. -/
def isfile (fs : FileSystem) (p : List Char) : Bool :=
  (readFile fs p).isSome

/-- `os.path.exists`: true for files and directories. -/
def pathExists (fs : FileSystem) (p : List Char) : Bool :=
  fs.dirs.contains p || isfile fs p

/-- Replace (or add) the file entry at `p`. -/
def setFile : List (List Char × List Char) → List Char → List Char → List (List Char × List Char)
  | [], p, c => [(p, c)]
  | e :: rest, p, c => if e.1 == p then (p, c) :: rest else e :: setFile rest p c

/-- Write `c` to the file at `p` (appending is done by the caller, who reads
the current content first). -/
def writeFile (fs : FileSystem) (p c : List Char) : FileSystem :=
  ⟨setFile fs.files p c, fs.dirs⟩

/-- Split a path on the separator. -/
def splitOnSepAux : List Char → List Char → List (List Char)
  | acc, [] => [acc.reverse]
  | acc, c :: rest =>
    if c = '/' then acc.reverse :: splitOnSepAux [] rest
    else splitOnSepAux (c :: acc) rest

/-- `path.split(os.sep)`. -/
def splitOnSep (p : List Char) : List (List Char) :=
  splitOnSepAux [] p

/-- `os.sep.join`. -/
def joinSep : List (List Char) → List Char
  | [] => []
  | [x] => x
  | x :: y :: rest => x ++ '/' :: joinSep (y :: rest)

/-- `os.path.normpath` on POSIX: drop empty and `.` components, resolve
`..` against preceding components, keep the initial slashes (two are
preserved when the path starts with exactly two). -/
def normpath (p : List Char) : List Char :=
  if p = [] then ['.']
  else
    let initialSlashes : Nat :=
      if p.take 2 = ['/', '/'] ∧ p.take 3 ≠ ['/', '/', '/'] then 2
      else if p.take 1 = ['/'] then 1
      else 0
    let newComps := (splitOnSep p).foldl
      (fun acc comp =>
        if comp = [] ∨ comp = ['.'] then acc
        else if comp ≠ ['.', '.'] ∨ (initialSlashes = 0 ∧ acc = []) ∨
            acc.getLast? = some ['.', '.'] then acc ++ [comp]
        else if acc ≠ [] then acc.dropLast
        else acc)
      []
    let res := List.replicate initialSlashes '/' ++ joinSep newComps
    if res = [] then ['.'] else res

/-- Joins of the successive non-empty component prefixes of `comps`:
the chain of directories `os.makedirs` brings into existence. -/
def chainJoins (pre : List (List Char)) : List (List Char) → List (List Char)
  | [] => []
  | c :: rest => joinSep (pre ++ [c]) :: chainJoins (pre ++ [c]) rest

/-- `os.makedirs`: creates the directory and every missing intermediate
one; called on the empty path it raises `FileNotFoundError`. -/
def makedirs (fs : FileSystem) (d : List Char) : Except PyErr FileSystem :=
  if d = [] then Except.error (PyErr.fileNotFound d)
  else Except.ok ⟨fs.files, (chainJoins [] (splitOnSep d)).filter (fun x => x ≠ []) ++ fs.dirs⟩

/-- `create_folder_directory`: normalize the path, cut off the final
component, and create the resulting directory chain when it does not
exist yet. -/
def create_folder_directory (fs : FileSystem) (path : List Char) : Except PyErr FileSystem :=
  let np := normpath path
  let split_path := (splitOnSep np).dropLast
  let directory := joinSep split_path
  if pathExists fs directory then Except.ok fs
  else makedirs fs directory

/-! ## Result records and the result sink -/

/-- A record returned by the remote service: either a JSON value, or an
object on which `json.dump` raises after having streamed `written`
characters to the file (records are opaque to the program, so only their
serialization behaviour matters). -/
inductive Record where
  | ser (j : Json)
  | bad (written : List Char)

/-- Outcome of one `json.dump(record, file)` call. -/
inductive DumpOut where
  | full (s : List Char)
  | raised (written : List Char)

/-- `json.dump(record, file)`: either the full document, or a `TypeError`
raised part-way.  CPython `json.dump` iterates `iterencode` chunks and
writes each chunk before producing the next, so when serialization fails
the chunks preceding the failure are already in the file (dumping
`\x7b"a": 1, "b": object()\x7d` writes `\x7b"a": 1, "b": ` and then
raises); only a record failing at its first chunk leaves no trace. -/
def dumpRecord : Record → DumpOut
  | Record.ser j => DumpOut.full (Json.render j)
  | Record.bad w => DumpOut.raised w

/-- The JSON values of a fully serializable record list. -/
def recordsJson : List Record → Option JsonList
  | [] => some JsonList.nil
  | Record.ser j :: rest => (recordsJson rest).map (fun xs => JsonList.cons j xs)
  | Record.bad _ :: _ => none

/-- `save_as_array`: dump the whole list as one JSON array appended to the
current content; an unserializable record makes the dump raise (the raise
is modelled; the partial array chunks it leaves behind are not, as no
specified behaviour depends on them). -/
def save_as_array (file : List Char) (articles : List Record) : Except PyErr (List Char) :=
  match recordsJson articles with
  | some xs => Except.ok (file ++ Json.render (Json.arr xs))
  | none => Except.error PyErr.typeError

/-- `save_as_separate_line`: one record per line; a record whose dump
raises is caught by the bare `except: continue` — its newline is never
written and iteration proceeds, but the chunks the failed dump already
streamed stay in the file. -/
def save_as_separate_line (file : List Char) (articles : List Record) : List Char :=
  match articles with
  | [] => file
  | a :: rest =>
    match dumpRecord a with
    | DumpOut.full s => save_as_separate_line (file ++ s ++ ['\n']) rest
    | DumpOut.raised w => save_as_separate_line (file ++ w) rest

/-- The characters one record leaves in a line-format file. -/
def writtenFor (a : Record) : List Char :=
  match dumpRecord a with
  | DumpOut.full s => s ++ ['\n']
  | DumpOut.raised w => w

/-- `save_result_in_file`: ensure the directory, then append in the chosen
format (the file is opened with mode `'a'`, so the new characters follow
the existing content). -/
def save_result_in_file (fs : FileSystem) (articles : List Record)
    (file_path : List Char) (save_format : Option String) : Except PyErr FileSystem := do
  let fs1 ← create_folder_directory fs file_path
  let current := (readFile fs1 file_path).getD []
  if save_format = some "array" then
    match save_as_array current articles with
    | Except.ok c => pure (writeFile fs1 file_path c)
    | Except.error e => Except.error e
  else
    pure (writeFile fs1 file_path (save_as_separate_line current articles))

/-! ## The `URI` pair -/

structure URI where
  keyword : String
  uri : Option String
deriving DecidableEq

def URI.get_keyword (u : URI) : String := u.keyword

def URI.get_uri (u : URI) : Option String := u.uri

/-- A Python value a `URI` can be compared against: a string, `None`, or
another `URI`. -/
inductive PyV where
  | vstr (s : String)
  | vnone
  | vuri (u : URI)
deriving DecidableEq

/-- `URI.__eq__` evaluates `self.__uri == other`.  Against a string or
`None` this is a plain comparison with the stored identifier.  Against
another `URI` object, `str.__eq__`/`NoneType.__eq__` return
`NotImplemented`, and Python retries with the reflected operand:
`other.__eq__(self.__uri)`, which again compares the stored identifiers. -/
def URI.eq (self : URI) (other : PyV) : Bool :=
  match other with
  | PyV.vstr s => self.uri == some s
  | PyV.vnone => self.uri == none
  | PyV.vuri o => o.uri == self.uri

/-- `URI.__ne__`: `not self == other`. -/
def URI.ne (self : URI) (other : PyV) : Bool :=
  !(URI.eq self other)

/-! ## The collector

The Event Registry SDK is an external collaborator: label resolution and
query execution are oracle functions bundled in `ER`.  Each `get_*`
entry point returns the query descriptor it handed to the SDK, the records
the SDK produced, and the file system after the optional save. -/

inductive QueryItems (α : Type) where
  | AND (items : List α)
  | OR (items : List α)
deriving DecidableEq

structure QueryArticlesIter where
  keywords : Option (QueryItems String)
  conceptUri : Option (QueryItems (Option String))
  categoryUri : Option (QueryItems (Option String))
  sourceUri : Option (QueryItems (Option String))
  dateStart : Option Json
  dateEnd : Option Json
  lang : Option (QueryItems String)

structure QueryEventsIter where
  keywords : Option (QueryItems String)
  conceptUri : Option (QueryItems (Option String))
  categoryUri : Option (QueryItems (Option String))
  sourceUri : Option (QueryItems (Option String))
  dateStart : Option Json
  dateEnd : Option Json
  lang : Option (QueryItems String)

structure QueryEventArticlesIter where
  event_id : List Char
  keywords : Option (QueryItems String)
  conceptUri : Option (QueryItems (Option String))
  categoryUri : Option (QueryItems (Option String))
  sourceUri : Option (QueryItems (Option String))
  dateStart : Option Json
  dateEnd : Option Json
  lang : Option (QueryItems String)

structure ER where
  getConceptUri : String → Option String
  getCategoryUri : String → Option String
  getSourceUri : String → Option String
  execArticles : QueryArticlesIter → String → Bool → Int → List Record
  execEvents : QueryEventsIter → String → Bool → Int → List Record
  execEventArticles : QueryEventArticlesIter → String → Bool → Int → List Record

/-- `get_concepts`: one lookup per label, paired into `URI` objects. -/
def get_concepts (er : ER) (concepts : List String) : List URI :=
  concepts.map (fun k => ⟨k, er.getConceptUri k⟩)

/-- `get_categories`. -/
def get_categories (er : ER) (categories : List String) : List URI :=
  categories.map (fun k => ⟨k, er.getCategoryUri k⟩)

/-- `get_sources`. -/
def get_sources (er : ER) (sources : List String) : List URI :=
  sources.map (fun k => ⟨k, er.getSourceUri k⟩)

/-- One source line `ER.QueryItems.AND(xs) if xs else None` (a `None` or
empty list is falsy and contributes no clause). -/
def er_and_of (xs : Option (List String)) : Option (QueryItems String) :=
  match xs with
  | some (k :: ks) => some (QueryItems.AND (k :: ks))
  | _ => none

/-- One source line `ER.QueryItems.OR(xs) if xs else None`. -/
def er_or_of (xs : Option (List String)) : Option (QueryItems String) :=
  match xs with
  | some (l :: ls) => some (QueryItems.OR (l :: ls))
  | _ => none

/-- `ER.QueryItems.AND([c.get_uri() for c in self.get_concepts(concepts)])
if concepts else None`. -/
def er_concepts_of (er : ER) (concepts : Option (List String)) :
    Option (QueryItems (Option String)) :=
  match concepts with
  | some (c :: cs) => some (QueryItems.AND ((get_concepts er (c :: cs)).map URI.get_uri))
  | _ => none

/-- The categories line, same shape with `get_categories`. -/
def er_categories_of (er : ER) (categories : Option (List String)) :
    Option (QueryItems (Option String)) :=
  match categories with
  | some (c :: cs) => some (QueryItems.AND ((get_categories er (c :: cs)).map URI.get_uri))
  | _ => none

/-- The sources line: an `OR` of the resolved source identifiers. -/
def er_sources_of (er : ER) (sources : Option (List String)) :
    Option (QueryItems (Option String)) :=
  match sources with
  | some (s :: ss) => some (QueryItems.OR ((get_sources er (s :: ss)).map URI.get_uri))
  | _ => none

/-- The trailing `if save_to_file: save_result_in_file(...)` step of the
`get_*` entry points (`None` and the empty string are falsy). -/
def maybe_save (fs : FileSystem) (articles : List Record)
    (save_to_file : Option (List Char)) (save_format : Option String) :
    Except PyErr FileSystem :=
  match save_to_file with
  | some p => if p = [] then Except.ok fs else save_result_in_file fs articles p save_format
  | none => Except.ok fs

/-- The resume block shared by `get_articles` and `get_events`: when
`save_to_file` is truthy and names an existing file with at least one
line, the last line is parsed as JSON and its `dateField` entry replaces
`date_start`; parse failures and missing keys raise. -/
def resume_date_start (dateField : String) (save_to_file : Option (List Char))
    (fs : FileSystem) (date_start : Option Json) : Except PyErr (Option Json) :=
  match save_to_file with
  | none => Except.ok date_start
  | some p =>
    if p ≠ [] ∧ isfile fs p then
      match (readlines ((readFile fs p).getD [])).getLast? with
      | none => Except.ok date_start
      | some last_line =>
        match loads last_line with
        | none => Except.error PyErr.jsonDecodeError
        | some last_article =>
          match Json.getField last_article dateField with
          | some v => Except.ok (some v)
          | none => Except.error (PyErr.keyError dateField)
    else Except.ok date_start

structure ArticlesResult where
  q : QueryArticlesIter
  articles : List Record
  fs : FileSystem

structure EventsResult where
  q : QueryEventsIter
  articles : List Record
  fs : FileSystem

structure EventArticlesResult where
  q : QueryEventArticlesIter
  articles : List Record
  fs : FileSystem

/-- `EventRegistryCollector.get_articles`. -/
def get_articles (er : ER)
    (keywords concepts categories sources languages : Option (List String))
    (date_start date_end : Option Json) (sort_by : String) (sort_by_asc : Bool)
    (max_items : Int) (save_to_file : Option (List Char)) (save_format : Option String)
    (fs : FileSystem) : Except PyErr ArticlesResult := do
  let er_keywords := er_and_of keywords
  let er_concepts := er_concepts_of er concepts
  let er_categories := er_categories_of er categories
  let er_sources := er_sources_of er sources
  let er_lang := er_or_of languages
  let ds ← resume_date_start "date" save_to_file fs date_start
  let q : QueryArticlesIter := ⟨er_keywords, er_concepts, er_categories, er_sources, ds, date_end, er_lang⟩
  let articles := er.execArticles q sort_by sort_by_asc max_items
  let fs2 ← maybe_save fs articles save_to_file save_format
  pure ⟨q, articles, fs2⟩

/-- `EventRegistryCollector.get_events` (the resume block reads the
`eventDate` field). -/
def get_events (er : ER)
    (keywords concepts categories sources languages : Option (List String))
    (date_start date_end : Option Json) (sort_by : String) (sort_by_asc : Bool)
    (max_items : Int) (save_to_file : Option (List Char)) (save_format : Option String)
    (fs : FileSystem) : Except PyErr EventsResult := do
  let er_keywords := er_and_of keywords
  let er_concepts := er_concepts_of er concepts
  let er_categories := er_categories_of er categories
  let er_sources := er_sources_of er sources
  let er_lang := er_or_of languages
  let ds ← resume_date_start "eventDate" save_to_file fs date_start
  let q : QueryEventsIter := ⟨er_keywords, er_concepts, er_categories, er_sources, ds, date_end, er_lang⟩
  let articles := er.execEvents q sort_by sort_by_asc max_items
  let fs2 ← maybe_save fs articles save_to_file save_format
  pure ⟨q, articles, fs2⟩

/-- `EventRegistryCollector.get_event_articles`: the per-event query; it
has no resume block, `date_start` flows into the query unchanged. -/
def get_event_articles (er : ER) (event_id : List Char)
    (keywords concepts categories sources languages : Option (List String))
    (date_start date_end : Option Json) (sort_by : String) (sort_by_asc : Bool)
    (max_items : Int) (save_to_file : Option (List Char)) (save_format : Option String)
    (fs : FileSystem) : Except PyErr EventArticlesResult := do
  let er_keywords := er_and_of keywords
  let er_concepts := er_concepts_of er concepts
  let er_categories := er_categories_of er categories
  let er_sources := er_sources_of er sources
  let er_lang := er_or_of languages
  let q : QueryEventArticlesIter := ⟨event_id, er_keywords, er_concepts, er_categories, er_sources, date_start, date_end, er_lang⟩
  let articles := er.execEventArticles q sort_by sort_by_asc max_items
  let fs2 ← maybe_save fs articles save_to_file save_format
  pure ⟨q, articles, fs2⟩

/-- Identifier extraction for a line of an `events`-type file:
`json.loads(line)['uri'].strip()`; a line that does not parse, lacks the
key, or whose value has no `strip` raises. -/
def extract_uri_id (line : List Char) : Except PyErr (List Char) :=
  match loads line with
  | none => Except.error PyErr.jsonDecodeError
  | some j =>
    match Json.getField j "uri" with
    | some (Json.str s) => Except.ok (pstrip s.data)
    | some _ => Except.error PyErr.attributeError
    | none => Except.error (PyErr.keyError "uri")

/-- The identifier list read from the file: `events` files carry one JSON
object per line, any other type takes each stripped line verbatim. -/
def extract_event_ids (event_file_type : String) (lines : List (List Char)) :
    Except PyErr (List (List Char)) :=
  if event_file_type = "events" then lines.mapM extract_uri_id
  else Except.ok (lines.map pstrip)

structure EventArticlesEntry where
  event_id : List Char
  articles : List Record

/-- The sequential per-identifier loop of `get_event_articles_from_file`:
each identifier gets one `get_event_articles` call (into
`save_to_folder/<id>.json` when a folder is given); the queries issued are
returned in order alongside the paired entries. -/
def event_articles_loop (er : ER)
    (keywords concepts categories sources languages : Option (List String))
    (date_start date_end : Option Json) (sort_by : String) (sort_by_asc : Bool)
    (max_items : Int) (save_to_folder : Option (List Char)) (save_format : Option String) :
    List (List Char) → FileSystem →
    Except PyErr (List EventArticlesEntry × List QueryEventArticlesIter × FileSystem)
  | [], fs => Except.ok ([], [], fs)
  | event_id :: rest, fs => do
    let event_path := match save_to_folder with
      | some folder =>
        if folder = [] then none
        else some (folder ++ '/' :: (event_id ++ ('.' :: 'j' :: 's' :: 'o' :: 'n' :: [])))
      | none => none
    let r ← get_event_articles er event_id keywords concepts categories sources languages
      date_start date_end sort_by sort_by_asc max_items event_path save_format fs
    let tl ← event_articles_loop er keywords concepts categories sources languages
      date_start date_end sort_by sort_by_asc max_items save_to_folder save_format rest r.fs
    pure (⟨event_id, r.articles⟩ :: tl.1, r.q :: tl.2.1, tl.2.2)

structure FromFileResult where
  entries : List EventArticlesEntry
  queries : List QueryEventArticlesIter
  fs : FileSystem

/-- `EventRegistryCollector.get_event_articles_from_file`: check the
identifiers file, read and extract the identifiers, then run the
sequential loop. -/
def get_event_articles_from_file (er : ER) (event_ids_file : Option (List Char))
    (event_file_type : String)
    (keywords concepts categories sources languages : Option (List String))
    (date_start date_end : Option Json) (sort_by : String) (sort_by_asc : Bool)
    (max_items : Int) (save_to_folder : Option (List Char)) (save_format : Option String)
    (fs : FileSystem) : Except PyErr FromFileResult :=
  match event_ids_file with
  | none => Except.error PyErr.eventIdsFileMissing
  | some p =>
    if p = [] ∨ ¬ isfile fs p then Except.error PyErr.eventIdsFileMissing
    else
      let lines := readlines ((readFile fs p).getD [])
      if lines.length = 0 then Except.error PyErr.eventIdsFileEmpty
      else do
        let event_ids ← extract_event_ids event_file_type lines
        let r ← event_articles_loop er keywords concepts categories sources languages
          date_start date_end sort_by sort_by_asc max_items save_to_folder save_format event_ids fs
        pure ⟨r.1, r.2.1, r.2.2⟩


/-! ## Sizes and separators used by the parser correctness proofs -/

mutual

def Json.fsize : Json → Nat
  | Json.null => 1
  | Json.bool _ => 1
  | Json.num _ => 1
  | Json.str _ => 1
  | Json.arr xs => 1 + JsonList.lsize xs
  | Json.obj ms => 1 + JsonMembers.msize ms

def JsonList.lsize : JsonList → Nat
  | JsonList.nil => 1
  | JsonList.cons x t => 1 + Json.fsize x + JsonList.lsize t

def JsonMembers.msize : JsonMembers → Nat
  | JsonMembers.nil => 1
  | JsonMembers.cons _ v t => 1 + Json.fsize v + JsonMembers.msize t

end

/-- What may follow a complete rendered value without extending it: the end
of the input or a non-digit character (every separator and closer of the
grammar qualifies). -/
def sepStart : List Char → Prop
  | [] => True
  | c :: _ => c.isDigit = false

def tenPow : Nat → Nat
  | 0 => 1
  | n + 1 => 10 * tenPow ((n + 1) / 10)
decreasing_by exact Nat.div_lt_self (Nat.succ_pos n) (by norm_num)

def listSep : JsonList → List Char
  | JsonList.nil => []
  | JsonList.cons y r => ',' :: ' ' :: renderList (JsonList.cons y r)

def memSep : JsonMembers → List Char
  | JsonMembers.nil => []
  | JsonMembers.cons k2 v2 r => ',' :: ' ' :: renderMembers (JsonMembers.cons k2 v2 r)

/-! ## Concrete fixtures used by the witness checks -/

def erW : ER :=
  ⟨fun k => some (String.append "c-" k),
   fun k => some (String.append "g-" k),
   fun k => some (String.append "s-" k),
   fun _ _ _ _ => [], fun _ _ _ _ => [], fun _ _ _ _ => []⟩

def dateObjW : Json :=
  Json.obj (JsonMembers.cons "date" (Json.str "2023-05-01") JsonMembers.nil)

def uriObjW : Json :=
  Json.obj (JsonMembers.cons "uri" (Json.str "  e-1 ") JsonMembers.nil)

def pathW : List Char := "d/a.json".data

def fsW1 : FileSystem := ⟨[(pathW, Json.render dateObjW ++ ['\n'])], []⟩

def fsEmptyW : FileSystem := ⟨[], []⟩

def fsC6W : FileSystem := ⟨[("ids".data, [])], []⟩

def fsC7W : FileSystem := ⟨[("ids".data, "e-1\ne-2\n".data)], []⟩

/-! ## General lemmas about the embedding -/

theorem save_as_separate_line_eq (file : List Char) (articles : List Record) :
    save_as_separate_line file articles = file ++ (articles.map writtenFor).flatten := by
  induction articles generalizing file with
  | nil => simp [save_as_separate_line]
  | cons a rest ih =>
    cases a with
    | ser j => simp [save_as_separate_line, writtenFor, dumpRecord, ih, List.append_assoc]
    | bad w => simp [save_as_separate_line, writtenFor, dumpRecord, ih, List.append_assoc]

theorem create_folder_directory_files (fs fs' : FileSystem) (path : List Char)
    (h : create_folder_directory fs path = Except.ok fs') : fs'.files = fs.files := by
  simp only [create_folder_directory] at h
  split at h
  · cases h; rfl
  · simp only [makedirs] at h
    split at h
    · exact absurd h (by simp)
    · cases h; rfl

theorem find_setFile (l : List (List Char × List Char)) (p c : List Char) :
    (setFile l p c).find? (fun e => e.1 == p) = some (p, c) := by
  induction l with
  | nil => simp [setFile, List.find?]
  | cons e rest ih =>
    by_cases he : e.1 == p
    · simp [setFile, he, List.find?]
    · simp [setFile, he, List.find?, ih]

theorem readFile_writeFile (fs : FileSystem) (p c : List Char) :
    readFile (writeFile fs p c) p = some c := by
  simp [readFile, writeFile, find_setFile]

theorem resume_date_start_reads_last_date (f : String) (p : List Char) (fs : FileSystem)
    (ds : Option Json) (content lastl : List Char) (j v : Json) (hp : p ≠ [])
    (hread : readFile fs p = some content)
    (hlast : (readlines content).getLast? = some lastl)
    (hj : loads lastl = some j) (hv : Json.getField j f = some v) :
    resume_date_start f (some p) fs ds = Except.ok (some v) := by
  unfold resume_date_start
  dsimp only
  simp [isfile, hread, hp, hlast, hj, hv]

theorem resume_date_start_skip (f : String) (p : List Char) (fs : FileSystem) (ds : Option Json)
    (hcase : p = [] ∨ readFile fs p = none ∨ readFile fs p = some []) :
    resume_date_start f (some p) fs ds = Except.ok ds := by
  unfold resume_date_start
  dsimp only
  rcases hcase with h | h | h
  · subst h; simp
  · simp [isfile, h]
  · simp [isfile, h, readlines, readlinesAux]

theorem get_articles_ok (er : ER)
    (kw co ca so la : Option (List String)) (ds de : Option Json) (sb : String)
    (sba : Bool) (mi : Int) (stf : Option (List Char)) (fmt : Option String)
    (fs : FileSystem) (r : ArticlesResult)
    (h : get_articles er kw co ca so la ds de sb sba mi stf fmt fs = Except.ok r) :
    ∃ ds2, resume_date_start "date" stf fs ds = Except.ok ds2 ∧
      r.q = ⟨er_and_of kw, er_concepts_of er co, er_categories_of er ca,
        er_sources_of er so, ds2, de, er_or_of la⟩ ∧
      r.articles = er.execArticles r.q sb sba mi := by
  unfold get_articles at h
  simp only [bind, Except.bind] at h
  split at h
  · exact absurd h (by simp)
  · rename_i ds2 hres
    refine ⟨ds2, hres, ?_⟩
    split at h
    · exact absurd h (by simp)
    · cases h
      exact ⟨rfl, rfl⟩

theorem get_events_ok (er : ER)
    (kw co ca so la : Option (List String)) (ds de : Option Json) (sb : String)
    (sba : Bool) (mi : Int) (stf : Option (List Char)) (fmt : Option String)
    (fs : FileSystem) (r : EventsResult)
    (h : get_events er kw co ca so la ds de sb sba mi stf fmt fs = Except.ok r) :
    ∃ ds2, resume_date_start "eventDate" stf fs ds = Except.ok ds2 ∧
      r.q = ⟨er_and_of kw, er_concepts_of er co, er_categories_of er ca,
        er_sources_of er so, ds2, de, er_or_of la⟩ ∧
      r.articles = er.execEvents r.q sb sba mi := by
  unfold get_events at h
  simp only [bind, Except.bind] at h
  split at h
  · exact absurd h (by simp)
  · rename_i ds2 hres
    refine ⟨ds2, hres, ?_⟩
    split at h
    · exact absurd h (by simp)
    · cases h
      exact ⟨rfl, rfl⟩

theorem get_event_articles_ok (er : ER) (eid : List Char)
    (kw co ca so la : Option (List String)) (ds de : Option Json) (sb : String)
    (sba : Bool) (mi : Int) (stf : Option (List Char)) (fmt : Option String)
    (fs : FileSystem) (r : EventArticlesResult)
    (h : get_event_articles er eid kw co ca so la ds de sb sba mi stf fmt fs = Except.ok r) :
    r.q = ⟨eid, er_and_of kw, er_concepts_of er co, er_categories_of er ca,
      er_sources_of er so, ds, de, er_or_of la⟩ ∧
    r.articles = er.execEventArticles r.q sb sba mi := by
  unfold get_event_articles at h
  simp only [bind, Except.bind] at h
  split at h
  · exact absurd h (by simp)
  · cases h
    exact ⟨rfl, rfl⟩

theorem digitChar_ne_nl (d : Nat) (hd : d < 10) : digitChar d ≠ '\n' := by
  interval_cases d <;> decide

theorem natDigitsAux_ne_nl (fuel : Nat) : ∀ (n : Nat) (acc : List Char),
    (∀ c ∈ acc, c ≠ '\n') → ∀ c ∈ natDigitsAux fuel n acc, c ≠ '\n' := by
  induction fuel with
  | zero =>
    intro n acc hacc c hc
    simp only [natDigitsAux] at hc
    exact hacc c hc
  | succ f ih =>
    intro n acc hacc c hc
    unfold natDigitsAux at hc
    split at hc
    · exact hacc c hc
    · refine ih (n / 10) _ ?_ c hc
      intro d hd
      rcases List.mem_cons.mp hd with h | h
      · subst h
        exact digitChar_ne_nl (n % 10) (Nat.mod_lt n (by norm_num))
      · exact hacc d h

theorem natDigits_ne_nl (n : Nat) : ∀ c ∈ natDigits n, c ≠ '\n' := by
  unfold natDigits
  split
  · intro c hc
    rw [List.mem_singleton] at hc
    subst hc
    decide
  · exact natDigitsAux_ne_nl n n [] (by simp)

theorem intRender_no_nl (n : Int) : '\n' ∉ intRender n := by
  cases n with
  | ofNat m =>
    intro hm
    exact natDigits_ne_nl m _ hm rfl
  | negSucc m =>
    intro hm
    rcases List.mem_cons.mp hm with h | h
    · exact absurd h (by decide)
    · exact natDigits_ne_nl (m + 1) _ h rfl

theorem escapeChar_no_nl (c : Char) : '\n' ∉ escapeChar c := by
  intro hm
  unfold escapeChar at hm
  split_ifs at hm with h1 h2 h3 h4 h5
  · exact absurd hm (by decide)
  · exact absurd hm (by decide)
  · exact absurd hm (by decide)
  · exact absurd hm (by decide)
  · exact absurd hm (by decide)
  · rw [List.mem_singleton] at hm
    exact h3 hm.symm

theorem escapeList_no_nl (s : List Char) : '\n' ∉ escapeList s := by
  induction s with
  | nil => simp [escapeList]
  | cons c cs ih =>
    simp only [escapeList, List.mem_append]
    rintro (h | h)
    · exact escapeChar_no_nl c h
    · exact ih h

theorem renderStr_no_nl (s : String) : '\n' ∉ renderStr s := by
  intro e
  rcases List.mem_cons.mp e with e | e
  · exact absurd e (by decide)
  · rcases List.mem_append.mp e with e | e
    · exact escapeList_no_nl s.data e
    · exact absurd e (by decide)

mutual

theorem render_no_nl : ∀ j : Json, '\n' ∉ Json.render j
  | Json.null => by decide
  | Json.bool b => by cases b <;> decide
  | Json.num n => intRender_no_nl n
  | Json.str s => renderStr_no_nl s
  | Json.arr xs => by
    have h := renderList_no_nl xs
    intro e
    rcases List.mem_cons.mp e with e | e
    · exact absurd e (by decide)
    · rcases List.mem_append.mp e with e | e
      · exact h e
      · exact absurd e (by decide)
  | Json.obj ms => by
    have h := renderMembers_no_nl ms
    intro e
    rcases List.mem_cons.mp e with e | e
    · exact absurd e (by decide)
    · rcases List.mem_append.mp e with e | e
      · exact h e
      · exact absurd e (by decide)

theorem renderList_no_nl : ∀ xs : JsonList, '\n' ∉ renderList xs
  | JsonList.nil => by simp [renderList]
  | JsonList.cons x JsonList.nil => by
    simpa only [renderList] using render_no_nl x
  | JsonList.cons x (JsonList.cons y rest) => by
    have h1 := render_no_nl x
    have h2 := renderList_no_nl (JsonList.cons y rest)
    intro e
    rcases List.mem_append.mp e with e | e
    · exact h1 e
    · rcases List.mem_cons.mp e with e | e
      · exact absurd e (by decide)
      · rcases List.mem_cons.mp e with e | e
        · exact absurd e (by decide)
        · exact h2 e

theorem renderMembers_no_nl : ∀ ms : JsonMembers, '\n' ∉ renderMembers ms
  | JsonMembers.nil => by simp [renderMembers]
  | JsonMembers.cons k v JsonMembers.nil => by
    have hk := renderStr_no_nl k
    have hv := render_no_nl v
    intro e
    rcases List.mem_append.mp e with e | e
    · exact hk e
    · rcases List.mem_cons.mp e with e | e
      · exact absurd e (by decide)
      · rcases List.mem_cons.mp e with e | e
        · exact absurd e (by decide)
        · exact hv e
  | JsonMembers.cons k v (JsonMembers.cons k2 v2 rest) => by
    have hk := renderStr_no_nl k
    have hv := render_no_nl v
    have hr := renderMembers_no_nl (JsonMembers.cons k2 v2 rest)
    intro e
    rcases List.mem_append.mp e with e | e
    · rcases List.mem_append.mp e with e | e
      · exact hk e
      · rcases List.mem_cons.mp e with e | e
        · exact absurd e (by decide)
        · rcases List.mem_cons.mp e with e | e
          · exact absurd e (by decide)
          · exact hv e
    · rcases List.mem_cons.mp e with e | e
      · exact absurd e (by decide)
      · rcases List.mem_cons.mp e with e | e
        · exact absurd e (by decide)
        · exact hr e

end

theorem readlinesAux_line (s : List Char) (hs : '\n' ∉ s) :
    ∀ (acc rest : List Char),
      readlinesAux acc (s ++ '\n' :: rest) =
        (acc.reverse ++ (s ++ ['\n'])) :: readlinesAux [] rest := by
  induction s with
  | nil =>
    intro acc rest
    simp [readlinesAux]
  | cons c s2 ih =>
    intro acc rest
    have hc : ¬ c = '\n' := fun e => hs (by simp [e])
    have step : readlinesAux acc ((c :: s2) ++ '\n' :: rest) =
        readlinesAux (c :: acc) (s2 ++ '\n' :: rest) := by
      simp [readlinesAux, hc]
    rw [step, ih (fun hm => hs (List.mem_cons_of_mem c hm)) (c :: acc) rest]
    simp

theorem readlines_cons_line (s rest : List Char) (hs : '\n' ∉ s) :
    readlines ((s ++ ['\n']) ++ rest) = (s ++ ['\n']) :: readlines rest := by
  unfold readlines
  rw [List.append_assoc]
  simpa using readlinesAux_line s hs [] rest

theorem readlines_flatten_lines (js : List Json) :
    readlines ((js.map (fun j => Json.render j ++ ['\n'])).flatten) =
      js.map (fun j => Json.render j ++ ['\n']) := by
  induction js with
  | nil => simp [readlines, readlinesAux]
  | cons j rest ih =>
    simp only [List.map_cons, List.flatten_cons]
    rw [readlines_cons_line _ _ (render_no_nl j), ih]

theorem save_result_in_file_line (fs : FileSystem) (arts : List Record)
    (path : List Char) (fs2 : FileSystem)
    (h : save_result_in_file fs arts path none = Except.ok fs2) :
    ∃ fs1, create_folder_directory fs path = Except.ok fs1 ∧
      fs2 = writeFile fs1 path (save_as_separate_line ((readFile fs1 path).getD []) arts) := by
  unfold save_result_in_file at h
  simp only [bind, Except.bind] at h
  split at h
  · exact absurd h (by simp)
  · rename_i fs1 hc
    refine ⟨fs1, hc, ?_⟩
    simp at h
    exact (Except.ok.inj h).symm

/-! ## The renderer and the parser invert each other -/

theorem skipWs_not_ws (c : Char) (h : isJsonWs c = false) (t : List Char) :
    skipWs (c :: t) = c :: t := by
  simp [skipWs, h]

theorem parseVal_cons_ws (f : Nat) (c : Char) (h : isJsonWs c = true) (cs : List Char) :
    parseVal f (c :: cs) = parseVal f cs := by
  cases f with
  | zero => rfl
  | succ g => simp [parseVal, skipWs, h]

theorem parseMembers_cons_ws (f : Nat) (c : Char) (h : isJsonWs c = true) (cs : List Char) :
    parseMembers f (c :: cs) = parseMembers f cs := by
  cases f with
  | zero => rfl
  | succ g => simp [parseMembers, skipWs, h]

theorem parseStrAux_close (acc rest : List Char) :
    parseStrAux acc ('\"' :: rest) = some (String.mk acc.reverse, rest) := by
  rw [parseStrAux.eq_def]
  simp

theorem parseStrAux_plain (acc rest : List Char) (c : Char) (h1 : ¬ c = '\"')
    (h2 : ¬ c = '\\') : parseStrAux acc (c :: rest) = parseStrAux (c :: acc) rest := by
  rw [parseStrAux.eq_def]
  dsimp only
  rw [if_neg h1, if_neg h2]

theorem parseStrAux_esc (acc rest : List Char) (e c2 : Char)
    (he : unescapeChar e = some c2) :
    parseStrAux acc ('\\' :: e :: rest) = parseStrAux (c2 :: acc) rest := by
  rw [parseStrAux.eq_def]
  simp [he]

theorem parseStrAux_escape (cs : List Char) : ∀ (acc rest : List Char),
    parseStrAux acc (escapeList cs ++ '\"' :: rest) =
      some (String.mk (acc.reverse ++ cs), rest) := by
  induction cs with
  | nil =>
    intro acc rest
    rw [show escapeList [] ++ '\"' :: rest = '\"' :: rest from rfl, parseStrAux_close]
    simp
  | cons c t ih =>
    intro acc rest
    rw [show escapeList (c :: t) ++ '\"' :: rest =
      escapeChar c ++ (escapeList t ++ '\"' :: rest) from by simp [escapeList]]
    by_cases h1 : c = '\"'
    · subst h1
      rw [show escapeChar '\"' ++ (escapeList t ++ '\"' :: rest) =
        '\\' :: '\"' :: (escapeList t ++ '\"' :: rest) from rfl]
      rw [parseStrAux_esc acc (escapeList t ++ '\"' :: rest) '\"' '\"' rfl, ih]
      simp
    · by_cases h2 : c = '\\'
      · subst h2
        rw [show escapeChar '\\' ++ (escapeList t ++ '\"' :: rest) =
          '\\' :: '\\' :: (escapeList t ++ '\"' :: rest) from rfl]
        rw [parseStrAux_esc acc (escapeList t ++ '\"' :: rest) '\\' '\\' rfl, ih]
        simp
      · by_cases h3 : c = '\n'
        · subst h3
          rw [show escapeChar '\n' ++ (escapeList t ++ '\"' :: rest) =
            '\\' :: 'n' :: (escapeList t ++ '\"' :: rest) from rfl]
          rw [parseStrAux_esc acc (escapeList t ++ '\"' :: rest) 'n' '\n' rfl, ih]
          simp
        · by_cases h4 : c = '\r'
          · subst h4
            rw [show escapeChar '\r' ++ (escapeList t ++ '\"' :: rest) =
              '\\' :: 'r' :: (escapeList t ++ '\"' :: rest) from rfl]
            rw [parseStrAux_esc acc (escapeList t ++ '\"' :: rest) 'r' '\r' rfl, ih]
            simp
          · by_cases h5 : c = '\t'
            · subst h5
              rw [show escapeChar '\t' ++ (escapeList t ++ '\"' :: rest) =
                '\\' :: 't' :: (escapeList t ++ '\"' :: rest) from rfl]
              rw [parseStrAux_esc acc (escapeList t ++ '\"' :: rest) 't' '\t' rfl, ih]
              simp
            · rw [show escapeChar c ++ (escapeList t ++ '\"' :: rest) =
                c :: (escapeList t ++ '\"' :: rest) from by
                  simp [escapeChar, h1, h2, h3, h4, h5]]
              rw [parseStrAux_plain _ _ c h1 h2, ih]
              simp

theorem digitChar_isDigit (d : Nat) (hd : d < 10) : (digitChar d).isDigit = true := by
  interval_cases d <;> decide

theorem digitVal_digitChar (d : Nat) (hd : d < 10) : digitVal (digitChar d) = d := by
  interval_cases d <;> decide

theorem natDigitsAux_digits (fuel : Nat) : ∀ (n : Nat) (acc : List Char),
    (∀ c ∈ acc, c.isDigit = true) → ∀ c ∈ natDigitsAux fuel n acc, c.isDigit = true := by
  induction fuel with
  | zero =>
    intro n acc hacc c hc
    simp only [natDigitsAux] at hc
    exact hacc c hc
  | succ f ih =>
    intro n acc hacc c hc
    unfold natDigitsAux at hc
    split at hc
    · exact hacc c hc
    · refine ih (n / 10) _ ?_ c hc
      intro d hd
      rcases List.mem_cons.mp hd with h | h
      · subst h
        exact digitChar_isDigit (n % 10) (Nat.mod_lt n (by norm_num))
      · exact hacc d h

theorem natDigitsAux_suffix (fuel : Nat) : ∀ (n : Nat) (acc : List Char),
    ∃ pre, natDigitsAux fuel n acc = pre ++ acc := by
  induction fuel with
  | zero => exact fun n acc => ⟨[], by simp [natDigitsAux]⟩
  | succ f ih =>
    intro n acc
    unfold natDigitsAux
    split
    · exact ⟨[], by simp⟩
    · obtain ⟨pre, hp⟩ := ih (n / 10) (digitChar (n % 10) :: acc)
      exact ⟨pre ++ [digitChar (n % 10)], by rw [hp]; simp⟩

theorem natDigits_digits (n : Nat) : ∀ c ∈ natDigits n, c.isDigit = true := by
  unfold natDigits
  split
  · intro c hc
    rw [List.mem_singleton] at hc
    subst hc
    decide
  · exact natDigitsAux_digits n n [] (by simp)

theorem natDigits_ne_nil (n : Nat) : natDigits n ≠ [] := by
  unfold natDigits
  split
  · simp
  · rename_i hn
    obtain ⟨g, rfl⟩ := Nat.exists_eq_succ_of_ne_zero hn
    simp only [natDigitsAux]
    rw [if_neg hn]
    obtain ⟨pre, hp⟩ := natDigitsAux_suffix g ((g + 1) / 10) [digitChar ((g + 1) % 10)]
    rw [hp]
    simp

theorem tenPow_of_ne_zero (n : Nat) (h : n ≠ 0) : tenPow n = 10 * tenPow (n / 10) := by
  obtain ⟨g, rfl⟩ := Nat.exists_eq_succ_of_ne_zero h
  rw [tenPow]

theorem foldl_natDigitsAux (fuel : Nat) : ∀ (n : Nat) (acc : List Char) (v : Nat),
    n ≤ fuel →
    (natDigitsAux fuel n acc).foldl (fun a c => a * 10 + digitVal c) v =
      acc.foldl (fun a c => a * 10 + digitVal c) (v * tenPow n + n) := by
  induction fuel with
  | zero =>
    intro n acc v hf
    interval_cases n
    simp [natDigitsAux, tenPow]
  | succ f ih =>
    intro n acc v hf
    unfold natDigitsAux
    split
    · rename_i h0
      subst h0
      simp [tenPow]
    · rename_i h0
      have hdivle : n / 10 ≤ f := by
        have := Nat.div_lt_self (Nat.pos_of_ne_zero h0) (show 1 < 10 by norm_num)
        omega
      rw [ih (n / 10) _ v hdivle]
      simp only [List.foldl_cons]
      rw [digitVal_digitChar (n % 10) (Nat.mod_lt n (by norm_num))]
      have harith : (v * tenPow (n / 10) + n / 10) * 10 + n % 10 = v * tenPow n + n := by
        rw [tenPow_of_ne_zero n h0]
        have hdm : 10 * (n / 10) + n % 10 = n := Nat.div_add_mod n 10
        have expand : (v * tenPow (n / 10) + n / 10) * 10 + n % 10 =
            v * (10 * tenPow (n / 10)) + (10 * (n / 10) + n % 10) := by ring
        rw [expand, hdm]
      rw [harith]

theorem digitsToNat_natDigits (n : Nat) : digitsToNat (natDigits n) = n := by
  unfold natDigits
  split
  · rename_i h
    subst h
    decide
  · unfold digitsToNat
    rw [foldl_natDigitsAux n n [] 0 (le_refl n)]
    simp

theorem takeDigits_append (ds : List Char) (hds : ∀ c ∈ ds, c.isDigit = true) :
    ∀ rest, sepStart rest → takeDigits (ds ++ rest) = (ds, rest) := by
  induction ds with
  | nil =>
    intro rest hrest
    cases rest with
    | nil => rfl
    | cons c t =>
      have hc : c.isDigit = false := hrest
      simp [takeDigits, hc]
  | cons c t ih =>
    intro rest hrest
    have hc : c.isDigit = true := hds c (by simp)
    have hrec := ih (fun d hd => hds d (by simp [hd])) rest hrest
    rw [List.cons_append, takeDigits.eq_def]
    dsimp only
    rw [if_pos hc, hrec]

theorem digit_head_ne_minus (ds rest : List Char) (hne : ds ≠ [])
    (hds : ∀ c ∈ ds, c.isDigit = true) : ¬ (ds ++ rest).head? = some '-' := by
  cases ds with
  | nil => exact absurd rfl hne
  | cons c t =>
    intro h
    simp only [List.cons_append, List.head?_cons, Option.some.injEq] at h
    subst h
    exact absurd (hds '-' (by simp)) (by decide)

theorem parseNum_digits (ds : List Char) (hne : ds ≠ [])
    (hds : ∀ c ∈ ds, c.isDigit = true) (rest : List Char) (hrest : sepStart rest) :
    parseNum (ds ++ rest) = some (Json.num (Int.ofNat (digitsToNat ds)), rest) := by
  unfold parseNum
  rw [if_neg (digit_head_ne_minus ds rest hne hds)]
  dsimp only
  rw [takeDigits_append ds hds rest hrest]
  dsimp only
  rw [if_neg hne]

theorem parseNum_neg_digits (ds : List Char) (hne : ds ≠ [])
    (hds : ∀ c ∈ ds, c.isDigit = true) (rest : List Char) (hrest : sepStart rest) :
    parseNum (('-' :: ds) ++ rest) =
      some (Json.num (-(digitsToNat ds : Int)), rest) := by
  unfold parseNum
  rw [if_pos (by simp)]
  dsimp only
  rw [show ('-' :: ds ++ rest).tail = ds ++ rest from rfl]
  rw [takeDigits_append ds hds rest hrest]
  dsimp only
  rw [if_neg hne]

theorem digit_not_special (c : Char) (h : c.isDigit = true) :
    isJsonWs c = false ∧ ¬ c = '\"' ∧ ¬ c = '{' ∧ ¬ c = '[' ∧ ¬ c = 't' ∧
      ¬ c = 'f' ∧ ¬ c = 'n' ∧ ¬ c = ']' ∧ ¬ c = '}' ∧ ¬ c = ',' := by
  refine ⟨?_, ?_, ?_, ?_, ?_, ?_, ?_, ?_, ?_, ?_⟩
  · by_contra hw
    have hw2 : isJsonWs c = true := by revert hw; cases isJsonWs c <;> simp
    simp only [isJsonWs, decide_eq_true_eq] at hw2
    rcases hw2 with e | e | e | e <;> subst e <;> exact absurd h (by decide)
  all_goals intro e; subst e; exact absurd h (by decide)

theorem parseVal_succ_to_num (g : Nat) (c : Char) (t : List Char)
    (hws : isJsonWs c = false) (h1 : ¬ c = '\"') (h2 : ¬ c = '{') (h3 : ¬ c = '[')
    (h4 : ¬ c = 't') (h5 : ¬ c = 'f') (h6 : ¬ c = 'n') :
    parseVal (g + 1) (c :: t) = parseNum (c :: t) := by
  rw [parseVal.eq_def]
  dsimp only
  rw [skipWs_not_ws c hws]
  dsimp only
  rw [if_neg h1, if_neg h2, if_neg h3, if_neg h4, if_neg h5, if_neg h6]

theorem render_head (j : Json) : ∃ c t0, Json.render j = c :: t0 ∧ isJsonWs c = false ∧
    ¬ c = ']' ∧ ¬ c = '}' ∧ ¬ c = ',' := by
  cases j with
  | null => exact ⟨'n', _, rfl, by decide, by decide, by decide, by decide⟩
  | bool b =>
    cases b with
    | true => exact ⟨'t', _, rfl, by decide, by decide, by decide, by decide⟩
    | false => exact ⟨'f', _, rfl, by decide, by decide, by decide, by decide⟩
  | num n =>
    cases n with
    | ofNat m =>
      obtain ⟨c, t0, hct⟩ : ∃ c t0, natDigits m = c :: t0 := by
        cases hnd : natDigits m with
        | nil => exact absurd hnd (natDigits_ne_nil m)
        | cons c t0 => exact ⟨c, t0, rfl⟩
      have hd : c.isDigit = true := natDigits_digits m c (by rw [hct]; simp)
      obtain ⟨hws, _, _, _, _, _, _, hbr, hbc, hcm⟩ := digit_not_special c hd
      exact ⟨c, t0, hct, hws, hbr, hbc, hcm⟩
    | negSucc m =>
      exact ⟨'-', _, rfl, by decide, by decide, by decide, by decide⟩
  | str s => exact ⟨'\"', _, rfl, by decide, by decide, by decide, by decide⟩
  | arr xs => exact ⟨'[', _, rfl, by decide, by decide, by decide, by decide⟩
  | obj ms => exact ⟨'{', _, rfl, by decide, by decide, by decide, by decide⟩

theorem renderList_cons_head (x : Json) (t : JsonList) :
    ∃ c t0, renderList (JsonList.cons x t) = c :: t0 ∧ isJsonWs c = false ∧ ¬ c = ']' := by
  obtain ⟨c, t0, hr, hws, hbr, _, _⟩ := render_head x
  cases t with
  | nil => exact ⟨c, t0, by rw [renderList, hr], hws, hbr⟩
  | cons y r =>
    refine ⟨c, t0 ++ ',' :: ' ' :: renderList (JsonList.cons y r), ?_, hws, hbr⟩
    rw [renderList.eq_def]
    dsimp only
    rw [hr]
    simp

theorem parseItems_cons_ws (f : Nat) (c : Char) (h : isJsonWs c = true) (cs : List Char) :
    parseItems f (c :: cs) = parseItems f cs := by
  cases f with
  | zero => rfl
  | succ g =>
    rw [parseItems.eq_def, parseItems.eq_def]
    dsimp only
    rw [parseVal_cons_ws g c h cs]

theorem renderList_cons_decomp (x : Json) (t : JsonList) :
    renderList (JsonList.cons x t) = Json.render x ++ listSep t := by
  cases t <;> simp [renderList, listSep]

theorem fsize_pos (j : Json) : 1 ≤ Json.fsize j := by
  cases j <;> simp [Json.fsize]

theorem lsize_pos (t : JsonList) : 1 ≤ JsonList.lsize t := by
  cases t <;> simp [JsonList.lsize] <;> omega

theorem msize_pos (t : JsonMembers) : 1 ≤ JsonMembers.msize t := by
  cases t <;> simp [JsonMembers.msize] <;> omega

mutual

theorem parseVal_render : ∀ (j : Json) (f : Nat) (rest : List Char),
    Json.fsize j < f → sepStart rest →
    parseVal f (Json.render j ++ rest) = some (j, rest)
  | Json.null, f, rest => by
    intro hf hsep
    have hf1 : f ≠ 0 := by simp [Json.fsize] at hf; omega
    obtain ⟨g, rfl⟩ := Nat.exists_eq_succ_of_ne_zero hf1
    rfl
  | Json.bool b, f, rest => by
    intro hf hsep
    have hf1 : f ≠ 0 := by simp [Json.fsize] at hf; omega
    obtain ⟨g, rfl⟩ := Nat.exists_eq_succ_of_ne_zero hf1
    cases b <;> rfl
  | Json.num n, f, rest => by
    intro hf hsep
    have hf1 : f ≠ 0 := by simp [Json.fsize] at hf; omega
    obtain ⟨g, rfl⟩ := Nat.exists_eq_succ_of_ne_zero hf1
    cases n with
    | ofNat m =>
      obtain ⟨c, t0, hct⟩ : ∃ c t0, natDigits m = c :: t0 := by
        cases hnd : natDigits m with
        | nil => exact absurd hnd (natDigits_ne_nil m)
        | cons c t0 => exact ⟨c, t0, rfl⟩
      have hd : c.isDigit = true := natDigits_digits m c (by rw [hct]; simp)
      obtain ⟨hws, h1, h2, h3, h4, h5, h6, _, _, _⟩ := digit_not_special c hd
      show parseVal (g + 1) (natDigits m ++ rest) = _
      rw [hct, List.cons_append,
        parseVal_succ_to_num g c (t0 ++ rest) hws h1 h2 h3 h4 h5 h6,
        ← List.cons_append, ← hct,
        parseNum_digits (natDigits m) (natDigits_ne_nil m) (natDigits_digits m) rest hsep,
        digitsToNat_natDigits]
    | negSucc m =>
      show parseVal (g + 1) (('-' :: natDigits (m + 1)) ++ rest) = _
      rw [List.cons_append,
        parseVal_succ_to_num g '-' (natDigits (m + 1) ++ rest) (by decide) (by decide)
          (by decide) (by decide) (by decide) (by decide) (by decide),
        ← List.cons_append,
        parseNum_neg_digits (natDigits (m + 1)) (natDigits_ne_nil _) (natDigits_digits _)
          rest hsep,
        digitsToNat_natDigits]
      rw [show (-(↑(m + 1) : Int)) = Int.negSucc m from by
        rw [Int.negSucc_eq]; push_cast; ring]
  | Json.str s, f, rest => by
    intro hf hsep
    have hf1 : f ≠ 0 := by simp [Json.fsize] at hf; omega
    obtain ⟨g, rfl⟩ := Nat.exists_eq_succ_of_ne_zero hf1
    rw [show Json.render (Json.str s) ++ rest =
      '\"' :: (escapeList s.data ++ '\"' :: rest) from by simp [Json.render, renderStr]]
    rw [parseVal.eq_def]
    dsimp only
    rw [skipWs_not_ws '\"' (by decide)]
    dsimp only
    rw [if_pos rfl, parseStrAux_escape s.data [] rest]
    simp
  | Json.arr xs, f, rest => by
    intro hf hsep
    have hf1 : f ≠ 0 := by simp [Json.fsize] at hf; omega
    obtain ⟨g, rfl⟩ := Nat.exists_eq_succ_of_ne_zero hf1
    cases xs with
    | nil => rfl
    | cons x t =>
      rw [show Json.render (Json.arr (JsonList.cons x t)) ++ rest =
        '[' :: (renderList (JsonList.cons x t) ++ ']' :: rest) from by simp [Json.render]]
      rw [parseVal.eq_def]
      dsimp only
      rw [skipWs_not_ws '[' (by decide)]
      dsimp only
      rw [if_neg (by decide), if_neg (by decide), if_pos rfl]
      obtain ⟨c0, t0, hct, hc0ws, hc0br⟩ := renderList_cons_head x t
      rw [show renderList (JsonList.cons x t) ++ ']' :: rest =
        c0 :: (t0 ++ ']' :: rest) from by rw [hct]; simp]
      rw [skipWs_not_ws c0 hc0ws]
      simp only [List.head?_cons]
      rw [if_neg (fun h => hc0br (Option.some.inj h))]
      rw [show c0 :: (t0 ++ ']' :: rest) =
        renderList (JsonList.cons x t) ++ ']' :: rest from by rw [hct]; simp]
      rw [parseItems_render x t g rest (by simp only [Json.fsize] at hf; omega)]
  | Json.obj ms, f, rest => by
    intro hf hsep
    have hf1 : f ≠ 0 := by simp [Json.fsize] at hf; omega
    obtain ⟨g, rfl⟩ := Nat.exists_eq_succ_of_ne_zero hf1
    cases ms with
    | nil => rfl
    | cons k v t =>
      rw [show Json.render (Json.obj (JsonMembers.cons k v t)) ++ rest =
        '{' :: (renderMembers (JsonMembers.cons k v t) ++ '}' :: rest) from by
          simp [Json.render]]
      rw [parseVal.eq_def]
      dsimp only
      rw [skipWs_not_ws '{' (by decide)]
      dsimp only
      rw [if_neg (by decide), if_pos rfl]
      rw [show renderMembers (JsonMembers.cons k v t) ++ '}' :: rest =
        '\"' :: (escapeList k.data ++ '\"' :: ':' :: ' ' ::
          (Json.render v ++ (memSep t ++ '}' :: rest))) from by
          cases t <;> simp [renderMembers, renderStr, memSep]]
      rw [skipWs_not_ws '\"' (by decide)]
      simp only [List.head?_cons]
      rw [if_neg (by decide : ¬ (some '\"' = some '}'))]
      rw [show ('\"' : Char) :: (escapeList k.data ++ '\"' :: ':' :: ' ' ::
          (Json.render v ++ (memSep t ++ '}' :: rest))) =
        renderMembers (JsonMembers.cons k v t) ++ '}' :: rest from by
          cases t <;> simp [renderMembers, renderStr, memSep]]
      rw [parseMembers_render k v t g rest (by simp only [Json.fsize] at hf; omega)]
termination_by j f rest => sizeOf j

theorem parseItems_render : ∀ (x : Json) (t : JsonList) (f : Nat) (rest : List Char),
    JsonList.lsize (JsonList.cons x t) < f →
    parseItems f (renderList (JsonList.cons x t) ++ ']' :: rest) =
      some (JsonList.cons x t, rest)
  | x, t, f, rest => by
    intro hsz
    have hf1 : f ≠ 0 := by simp [JsonList.lsize] at hsz; omega
    obtain ⟨g, rfl⟩ := Nat.exists_eq_succ_of_ne_zero hf1
    rw [parseItems.eq_def]
    dsimp only
    rw [renderList_cons_decomp, List.append_assoc]
    rw [parseVal_render x g (listSep t ++ ']' :: rest)
      (by simp only [JsonList.lsize] at hsz; have := lsize_pos t; omega)
      (by cases t <;> simp [listSep, sepStart])]
    dsimp only
    cases t with
    | nil =>
      rw [show listSep JsonList.nil ++ ']' :: rest = ']' :: rest from rfl]
      rw [skipWs_not_ws ']' (by decide)]
      dsimp only
      rw [if_neg (by decide), if_pos rfl]
    | cons y r =>
      rw [show listSep (JsonList.cons y r) ++ ']' :: rest =
        ',' :: ' ' :: (renderList (JsonList.cons y r) ++ ']' :: rest) from by
          simp [listSep]]
      rw [skipWs_not_ws ',' (by decide)]
      dsimp only
      rw [if_pos rfl]
      rw [parseItems_cons_ws g ' ' (by decide)]
      rw [parseItems_render y r g rest
        (by simp only [JsonList.lsize] at hsz ⊢; have := fsize_pos x; omega)]
termination_by x t f rest => sizeOf (JsonList.cons x t)

theorem parseMembers_render : ∀ (k : String) (v : Json) (t : JsonMembers) (f : Nat)
    (rest : List Char),
    JsonMembers.msize (JsonMembers.cons k v t) < f →
    parseMembers f (renderMembers (JsonMembers.cons k v t) ++ '}' :: rest) =
      some (JsonMembers.cons k v t, rest)
  | k, v, t, f, rest => by
    intro hsz
    have hf1 : f ≠ 0 := by simp [JsonMembers.msize] at hsz; omega
    obtain ⟨g, rfl⟩ := Nat.exists_eq_succ_of_ne_zero hf1
    rw [show renderMembers (JsonMembers.cons k v t) ++ '}' :: rest =
      '\"' :: (escapeList k.data ++ '\"' :: ':' :: ' ' ::
        (Json.render v ++ (memSep t ++ '}' :: rest))) from by
        cases t <;> simp [renderMembers, renderStr, memSep]]
    rw [parseMembers.eq_def]
    dsimp only
    rw [skipWs_not_ws '\"' (by decide)]
    dsimp only
    rw [if_pos rfl]
    rw [parseStrAux_escape k.data []
      (':' :: ' ' :: (Json.render v ++ (memSep t ++ '}' :: rest)))]
    dsimp only
    rw [skipWs_not_ws ':' (by decide)]
    dsimp only
    rw [if_pos rfl]
    rw [parseVal_cons_ws g ' ' (by decide)]
    rw [parseVal_render v g (memSep t ++ '}' :: rest)
      (by simp only [JsonMembers.msize] at hsz; have := msize_pos t; omega)
      (by cases t <;> simp [memSep, sepStart])]
    dsimp only
    cases t with
    | nil =>
      rw [show memSep JsonMembers.nil ++ '}' :: rest = '}' :: rest from rfl]
      rw [skipWs_not_ws '}' (by decide)]
      dsimp only
      rw [if_neg (by decide), if_pos rfl]
      simp
    | cons k2 v2 r =>
      rw [show memSep (JsonMembers.cons k2 v2 r) ++ '}' :: rest =
        ',' :: ' ' :: (renderMembers (JsonMembers.cons k2 v2 r) ++ '}' :: rest) from by
          simp [memSep]]
      rw [skipWs_not_ws ',' (by decide)]
      dsimp only
      rw [if_pos rfl]
      rw [parseMembers_cons_ws g ' ' (by decide)]
      rw [parseMembers_render k2 v2 r g rest
        (by simp only [JsonMembers.msize] at hsz ⊢; have := fsize_pos v; omega)]
      simp
termination_by k v t f rest => sizeOf (JsonMembers.cons k v t)

end

mutual

theorem fsize_le_render : ∀ j : Json, Json.fsize j + 1 ≤ 2 * (Json.render j).length
  | Json.null => by simp [Json.fsize, Json.render]
  | Json.bool b => by cases b <;> simp [Json.fsize, Json.render]
  | Json.num n => by
    have h1 : 1 ≤ (intRender n).length := by
      cases n with
      | ofNat m =>
        simpa [intRender] using List.length_pos.mpr (natDigits_ne_nil m)
      | negSucc m => simp [intRender]
    simp only [Json.fsize, Json.render]
    omega
  | Json.str s => by
    simp [Json.fsize, Json.render, renderStr]
  | Json.arr xs => by
    have h := lsize_le_renderList xs
    simp only [Json.fsize, Json.render, List.length_cons, List.length_append,
      List.length_singleton] at h ⊢
    omega
  | Json.obj ms => by
    have h := msize_le_renderMembers ms
    simp only [Json.fsize, Json.render, List.length_cons, List.length_append,
      List.length_singleton] at h ⊢
    omega

theorem lsize_le_renderList : ∀ xs : JsonList, JsonList.lsize xs ≤ 2 * (renderList xs).length + 1
  | JsonList.nil => by simp [JsonList.lsize, renderList]
  | JsonList.cons x JsonList.nil => by
    have h := fsize_le_render x
    simp only [JsonList.lsize, renderList]
    omega
  | JsonList.cons x (JsonList.cons y r) => by
    have h1 := fsize_le_render x
    have h2 := lsize_le_renderList (JsonList.cons y r)
    simp only [JsonList.lsize] at h2 ⊢
    simp only [renderList, List.length_append, List.length_cons]
    omega

theorem msize_le_renderMembers : ∀ ms : JsonMembers,
    JsonMembers.msize ms ≤ 2 * (renderMembers ms).length + 1
  | JsonMembers.nil => by simp [JsonMembers.msize, renderMembers]
  | JsonMembers.cons k v JsonMembers.nil => by
    have h := fsize_le_render v
    simp only [JsonMembers.msize, renderMembers, List.length_append, List.length_cons]
    omega
  | JsonMembers.cons k v (JsonMembers.cons k2 v2 r) => by
    have h1 := fsize_le_render v
    have h2 := msize_le_renderMembers (JsonMembers.cons k2 v2 r)
    simp only [JsonMembers.msize] at h2 ⊢
    simp only [renderMembers, List.length_append, List.length_cons]
    omega

end

/-- The full round trip behind the line format: `json.loads` applied to one
written line (the rendering of a record plus its newline) recovers exactly
the record. -/
theorem loads_render_line (j : Json) : loads (Json.render j ++ ['\n']) = some j := by
  unfold loads
  rw [parseVal_render j (2 * (Json.render j ++ ['\n']).length + 2) ['\n']
    (by have := fsize_le_render j; simp only [List.length_append, List.length_singleton]; omega)
    (by simp only [sepStart]; decide)]
  rfl

theorem er_and_of_falsy (xs : Option (List String)) (h : xs = none ∨ xs = some []) :
    er_and_of xs = none := by
  rcases h with h | h <;> subst h <;> rfl

theorem er_or_of_falsy (xs : Option (List String)) (h : xs = none ∨ xs = some []) :
    er_or_of xs = none := by
  rcases h with h | h <;> subst h <;> rfl

theorem er_concepts_of_falsy (er : ER) (xs : Option (List String))
    (h : xs = none ∨ xs = some []) : er_concepts_of er xs = none := by
  rcases h with h | h <;> subst h <;> rfl

theorem er_categories_of_falsy (er : ER) (xs : Option (List String))
    (h : xs = none ∨ xs = some []) : er_categories_of er xs = none := by
  rcases h with h | h <;> subst h <;> rfl

theorem er_sources_of_falsy (er : ER) (xs : Option (List String))
    (h : xs = none ∨ xs = some []) : er_sources_of er xs = none := by
  rcases h with h | h <;> subst h <;> rfl

theorem er_concepts_of_resolved (er : ER) (c : String) (cs : List String) :
    er_concepts_of er (some (c :: cs)) =
      some (QueryItems.AND ((c :: cs).map er.getConceptUri)) := by
  simp [er_concepts_of, get_concepts, List.map_map, Function.comp, URI.get_uri]

theorem er_categories_of_resolved (er : ER) (c : String) (cs : List String) :
    er_categories_of er (some (c :: cs)) =
      some (QueryItems.AND ((c :: cs).map er.getCategoryUri)) := by
  simp [er_categories_of, get_categories, List.map_map, Function.comp, URI.get_uri]

theorem er_sources_of_resolved (er : ER) (s : String) (ss : List String) :
    er_sources_of er (some (s :: ss)) =
      some (QueryItems.OR ((s :: ss).map er.getSourceUri)) := by
  simp [er_sources_of, get_sources, List.map_map, Function.comp, URI.get_uri]

/-! ## The claims -/

/-- C3 counterexample: a record whose `json.dump` raises after having
streamed one chunk leaves that chunk in the file, so the output differs
from the run without the failing record — "no partial-line written" is
false. -/
theorem c3_partial_output_counterexample :
    save_as_separate_line [] [Record.bad ['x'], Record.ser (Json.obj JsonMembers.nil)] ≠
      save_as_separate_line [] [Record.ser (Json.obj JsonMembers.nil)] := by
  decide

/-- C3 (amended): during line-delimited writing a record that fails to
serialize is silently skipped — no error is surfaced (the writer is total)
and iteration continues with the next record — but the chunks its dump
streamed before failing remain in the file (with no newline of its own);
only a record that fails before its first chunk leaves no trace.  The
output is exactly the prior content followed by each record's written
characters in order. -/
theorem c3_line_write_skips_unserializable :
    (∀ (file : List Char) (articles : List Record),
      save_as_separate_line file articles = file ++ (articles.map writtenFor).flatten) ∧
    (∀ (file : List Char) (xs ys : List Record),
      save_as_separate_line file (xs ++ Record.bad [] :: ys) =
        save_as_separate_line file (xs ++ ys)) := by
  refine ⟨save_as_separate_line_eq, ?_⟩
  intro file xs ys
  rw [save_as_separate_line_eq, save_as_separate_line_eq]
  simp [writtenFor, dumpRecord]

/-- C9: `URI` equality is decided by the identifier component alone — two
`URI` values compare equal exactly when their stored identifiers are equal,
whatever the keyword labels; and `__ne__` is the pointwise negation of
`__eq__`. -/
theorem c9_uri_equality_by_identifier :
    (∀ (k1 k2 : String) (u1 u2 : Option String),
      URI.eq ⟨k1, u1⟩ (PyV.vuri ⟨k2, u2⟩) = (u1 == u2)) ∧
    (∀ (a : URI) (o : PyV), URI.ne a o = !(URI.eq a o)) := by
  constructor
  · intro k1 k2 u1 u2
    show (u2 == u1) = (u1 == u2)
    by_cases h : u1 = u2
    · subst h; rfl
    · rw [beq_eq_false_iff_ne.mpr h, beq_eq_false_iff_ne.mpr (Ne.symm h)]
  · intro a o
    rfl

/-- C5: the claim fails on the code.  For a target path with no directory
component (for example `out.json`), `create_folder_directory` computes the
directory string `""`, finds that it does not exist, and calls
`os.makedirs("")`, which raises `FileNotFoundError` — so the directory
path is not ensured and the write never happens. -/
theorem c5_dirless_target_path_raises :
    save_result_in_file ⟨[], []⟩ [Record.ser (Json.obj JsonMembers.nil)]
      ("out.json".data) none = Except.error (PyErr.fileNotFound []) := by
  rfl

/-- C10: `get_event_articles` never applies the file-based resume override:
whatever the file system holds at the save path, the supplied date_start is
the one in the constructed query. -/
theorem c10_event_articles_no_resume :
    ∀ (er : ER) (eid : List Char) (kw co ca so la : Option (List String))
      (ds de : Option Json) (sb : String) (sba : Bool) (mi : Int)
      (stf : Option (List Char)) (fmt : Option String) (fs : FileSystem)
      (r : EventArticlesResult),
      get_event_articles er eid kw co ca so la ds de sb sba mi stf fmt fs = Except.ok r →
      r.q.dateStart = ds := by
  intro er eid kw co ca so la ds de sb sba mi stf fmt fs r h
  obtain ⟨hq, _⟩ := get_event_articles_ok er eid kw co ca so la ds de sb sba mi stf fmt fs r h
  rw [hq]

/-- C2: in both `get_articles` and `get_events`, a non-empty keywords,
concepts or categories list reaches the remote query as a logical AND
(concepts and categories over their per-label resolved identifiers), a
non-empty sources or languages list as a logical OR, and an absent or empty
list leaves the corresponding query field `None`. -/
theorem c2_filter_combination :
    (∀ (er : ER) (kw co ca so la : Option (List String)) (ds de : Option Json)
       (sb : String) (sba : Bool) (mi : Int) (stf : Option (List Char))
       (fmt : Option String) (fs : FileSystem) (r : ArticlesResult),
      get_articles er kw co ca so la ds de sb sba mi stf fmt fs = Except.ok r →
      ((kw = none ∨ kw = some [] → r.q.keywords = none) ∧
       (∀ k ks, kw = some (k :: ks) → r.q.keywords = some (QueryItems.AND (k :: ks))) ∧
       (co = none ∨ co = some [] → r.q.conceptUri = none) ∧
       (∀ c cs, co = some (c :: cs) →
         r.q.conceptUri = some (QueryItems.AND ((c :: cs).map er.getConceptUri))) ∧
       (ca = none ∨ ca = some [] → r.q.categoryUri = none) ∧
       (∀ c cs, ca = some (c :: cs) →
         r.q.categoryUri = some (QueryItems.AND ((c :: cs).map er.getCategoryUri))) ∧
       (so = none ∨ so = some [] → r.q.sourceUri = none) ∧
       (∀ u us, so = some (u :: us) →
         r.q.sourceUri = some (QueryItems.OR ((u :: us).map er.getSourceUri))) ∧
       (la = none ∨ la = some [] → r.q.lang = none) ∧
       (∀ l ls, la = some (l :: ls) → r.q.lang = some (QueryItems.OR (l :: ls))))) ∧
    (∀ (er : ER) (kw co ca so la : Option (List String)) (ds de : Option Json)
       (sb : String) (sba : Bool) (mi : Int) (stf : Option (List Char))
       (fmt : Option String) (fs : FileSystem) (r : EventsResult),
      get_events er kw co ca so la ds de sb sba mi stf fmt fs = Except.ok r →
      ((kw = none ∨ kw = some [] → r.q.keywords = none) ∧
       (∀ k ks, kw = some (k :: ks) → r.q.keywords = some (QueryItems.AND (k :: ks))) ∧
       (co = none ∨ co = some [] → r.q.conceptUri = none) ∧
       (∀ c cs, co = some (c :: cs) →
         r.q.conceptUri = some (QueryItems.AND ((c :: cs).map er.getConceptUri))) ∧
       (ca = none ∨ ca = some [] → r.q.categoryUri = none) ∧
       (∀ c cs, ca = some (c :: cs) →
         r.q.categoryUri = some (QueryItems.AND ((c :: cs).map er.getCategoryUri))) ∧
       (so = none ∨ so = some [] → r.q.sourceUri = none) ∧
       (∀ u us, so = some (u :: us) →
         r.q.sourceUri = some (QueryItems.OR ((u :: us).map er.getSourceUri))) ∧
       (la = none ∨ la = some [] → r.q.lang = none) ∧
       (∀ l ls, la = some (l :: ls) → r.q.lang = some (QueryItems.OR (l :: ls))))) := by
  constructor
  · intro er kw co ca so la ds de sb sba mi stf fmt fs r h
    obtain ⟨ds2, _, hq, _⟩ := get_articles_ok er kw co ca so la ds de sb sba mi stf fmt fs r h
    rw [hq]
    exact ⟨fun hc => er_and_of_falsy kw hc,
      fun k ks hk => by subst hk; rfl,
      fun hc => er_concepts_of_falsy er co hc,
      fun c cs hk => by subst hk; exact er_concepts_of_resolved er c cs,
      fun hc => er_categories_of_falsy er ca hc,
      fun c cs hk => by subst hk; exact er_categories_of_resolved er c cs,
      fun hc => er_sources_of_falsy er so hc,
      fun u us hk => by subst hk; exact er_sources_of_resolved er u us,
      fun hc => er_or_of_falsy la hc,
      fun l ls hk => by subst hk; rfl⟩
  · intro er kw co ca so la ds de sb sba mi stf fmt fs r h
    obtain ⟨ds2, _, hq, _⟩ := get_events_ok er kw co ca so la ds de sb sba mi stf fmt fs r h
    rw [hq]
    exact ⟨fun hc => er_and_of_falsy kw hc,
      fun k ks hk => by subst hk; rfl,
      fun hc => er_concepts_of_falsy er co hc,
      fun c cs hk => by subst hk; exact er_concepts_of_resolved er c cs,
      fun hc => er_categories_of_falsy er ca hc,
      fun c cs hk => by subst hk; exact er_categories_of_resolved er c cs,
      fun hc => er_sources_of_falsy er so hc,
      fun u us hk => by subst hk; exact er_sources_of_resolved er u us,
      fun hc => er_or_of_falsy la hc,
      fun l ls hk => by subst hk; rfl⟩

/-- C1: when `save_to_file` names an existing file with a non-empty line
list whose last line parses as a JSON object carrying the date field
(`date` for articles, `eventDate` for events), that field value is the
dateStart of the constructed query, replacing the supplied date_start;
when the file does not exist or is empty, the supplied date_start flows
through unchanged. -/
theorem c1_date_start_resume :
    (∀ (er : ER) (kw co ca so la : Option (List String)) (ds de : Option Json)
       (sb : String) (sba : Bool) (mi : Int) (fmt : Option String) (fs : FileSystem)
       (p content lastl : List Char) (j v : Json) (r : ArticlesResult),
      p ≠ [] → readFile fs p = some content →
      (readlines content).getLast? = some lastl →
      loads lastl = some j → Json.getField j "date" = some v →
      get_articles er kw co ca so la ds de sb sba mi (some p) fmt fs = Except.ok r →
      r.q.dateStart = some v) ∧
    (∀ (er : ER) (kw co ca so la : Option (List String)) (ds de : Option Json)
       (sb : String) (sba : Bool) (mi : Int) (fmt : Option String) (fs : FileSystem)
       (p : List Char) (r : ArticlesResult),
      (p = [] ∨ readFile fs p = none ∨ readFile fs p = some []) →
      get_articles er kw co ca so la ds de sb sba mi (some p) fmt fs = Except.ok r →
      r.q.dateStart = ds) ∧
    (∀ (er : ER) (kw co ca so la : Option (List String)) (ds de : Option Json)
       (sb : String) (sba : Bool) (mi : Int) (fmt : Option String) (fs : FileSystem)
       (p content lastl : List Char) (j v : Json) (r : EventsResult),
      p ≠ [] → readFile fs p = some content →
      (readlines content).getLast? = some lastl →
      loads lastl = some j → Json.getField j "eventDate" = some v →
      get_events er kw co ca so la ds de sb sba mi (some p) fmt fs = Except.ok r →
      r.q.dateStart = some v) ∧
    (∀ (er : ER) (kw co ca so la : Option (List String)) (ds de : Option Json)
       (sb : String) (sba : Bool) (mi : Int) (fmt : Option String) (fs : FileSystem)
       (p : List Char) (r : EventsResult),
      (p = [] ∨ readFile fs p = none ∨ readFile fs p = some []) →
      get_events er kw co ca so la ds de sb sba mi (some p) fmt fs = Except.ok r →
      r.q.dateStart = ds) := by
  refine ⟨?_, ?_, ?_, ?_⟩
  · intro er kw co ca so la ds de sb sba mi fmt fs p content lastl j v r hp hread hlast hj hv h
    obtain ⟨ds2, hres, hq, _⟩ := get_articles_ok er kw co ca so la ds de sb sba mi (some p) fmt fs r h
    rw [resume_date_start_reads_last_date "date" p fs ds content lastl j v hp hread hlast hj hv] at hres
    cases hres
    rw [hq]
  · intro er kw co ca so la ds de sb sba mi fmt fs p r hcase h
    obtain ⟨ds2, hres, hq, _⟩ := get_articles_ok er kw co ca so la ds de sb sba mi (some p) fmt fs r h
    rw [resume_date_start_skip "date" p fs ds hcase] at hres
    cases hres
    rw [hq]
  · intro er kw co ca so la ds de sb sba mi fmt fs p content lastl j v r hp hread hlast hj hv h
    obtain ⟨ds2, hres, hq, _⟩ := get_events_ok er kw co ca so la ds de sb sba mi (some p) fmt fs r h
    rw [resume_date_start_reads_last_date "eventDate" p fs ds content lastl j v hp hread hlast hj hv] at hres
    cases hres
    rw [hq]
  · intro er kw co ca so la ds de sb sba mi fmt fs p r hcase h
    obtain ⟨ds2, hres, hq, _⟩ := get_events_ok er kw co ca so la ds de sb sba mi (some p) fmt fs r h
    rw [resume_date_start_skip "eventDate" p fs ds hcase] at hres
    cases hres
    rw [hq]

/-- C6: `get_event_articles_from_file` raises when the identifiers file
argument is `None`, when it names no existing file, and when it names an
existing file with zero lines; the error is returned before any per-event
query or write happens (the function aborts with no result). -/
theorem c6_from_file_validation :
    ∀ (er : ER) (ft : String) (kw co ca so la : Option (List String))
      (ds de : Option Json) (sb : String) (sba : Bool) (mi : Int)
      (folder : Option (List Char)) (fmt : Option String) (fs : FileSystem),
      (get_event_articles_from_file er none ft kw co ca so la ds de sb sba mi folder fmt fs
        = Except.error PyErr.eventIdsFileMissing) ∧
      (∀ p, isfile fs p = false →
        get_event_articles_from_file er (some p) ft kw co ca so la ds de sb sba mi folder fmt fs
          = Except.error PyErr.eventIdsFileMissing) ∧
      (∀ p, p ≠ [] → readFile fs p = some [] →
        get_event_articles_from_file er (some p) ft kw co ca so la ds de sb sba mi folder fmt fs
          = Except.error PyErr.eventIdsFileEmpty) := by
  intro er ft kw co ca so la ds de sb sba mi folder fmt fs
  refine ⟨rfl, ?_, ?_⟩
  · intro p hp
    simp [get_event_articles_from_file, hp]
  · intro p hp hread
    simp [get_event_articles_from_file, isfile, hread, hp, readlines, readlinesAux]

/-- C8: for an `events`-type identifiers file, the identifier extracted
from a line whose JSON object carries a string `uri` field is exactly that
value with surrounding whitespace stripped, and the file-level extraction
applies this extraction to every line in order. -/
theorem c8_events_line_uri_extraction :
    (∀ (line : List Char) (j : Json) (s : String),
      loads line = some j → Json.getField j "uri" = some (Json.str s) →
      extract_uri_id line = Except.ok (pstrip s.data)) ∧
    (∀ lines : List (List Char),
      extract_event_ids "events" lines = lines.mapM extract_uri_id) := by
  constructor
  · intro line j s hj hs
    simp [extract_uri_id, hj, hs]
  · intro lines
    rfl

/-- C4: writing a list of serializable records in line format over an
absent or empty file produces a file with exactly one line per record, in
the original order; each line is the full JSON rendering of its record
followed by a newline, and is independently parseable: `json.loads` on the
line recovers the record. -/
theorem map_written_ser (js : List Json) :
    (js.map Record.ser).map writtenFor = js.map (fun j => Json.render j ++ ['\n']) := by
  induction js with
  | nil => rfl
  | cons j t ih => simp_all [writtenFor, dumpRecord]

theorem c4_line_format_layout :
    ∀ (fs : FileSystem) (js : List Json) (path : List Char) (fs2 : FileSystem),
      (readFile fs path = none ∨ readFile fs path = some []) →
      save_result_in_file fs (js.map Record.ser) path none = Except.ok fs2 →
      ∃ content2, readFile fs2 path = some content2 ∧
        readlines content2 = js.map (fun j => Json.render j ++ ['\n']) ∧
        (readlines content2).length = js.length ∧
        ∀ line ∈ readlines content2,
          ∃ jl, line = Json.render jl ++ ['\n'] ∧ loads line = some jl := by
  intro fs js path fs2 hold hsave
  obtain ⟨fs1, hc, hw⟩ := save_result_in_file_line fs (js.map Record.ser) path fs2 hsave
  have hfiles := create_folder_directory_files fs fs1 path hc
  have hread1 : readFile fs1 path = readFile fs path := by
    unfold readFile; rw [hfiles]
  have hcur : (readFile fs1 path).getD [] = [] := by
    rcases hold with h | h <;> rw [hread1, h] <;> rfl
  rw [hcur] at hw
  have hsasl : save_as_separate_line [] (js.map Record.ser) =
      (js.map (fun j => Json.render j ++ ['\n'])).flatten := by
    rw [save_as_separate_line_eq, map_written_ser]
    simp
  rw [hsasl] at hw
  subst hw
  refine ⟨_, readFile_writeFile fs1 path _, readlines_flatten_lines js, ?_, ?_⟩
  · rw [readlines_flatten_lines js]
    simp
  · rw [readlines_flatten_lines js]
    intro line hl
    obtain ⟨jl, _, he⟩ := List.mem_map.mp hl
    exact ⟨jl, he.symm, by rw [← he]; exact loads_render_line jl⟩

/-- C7: for a `plain`-type identifiers file whose two lines strip to
`e-1` and `e-2`, the orchestration issues exactly two per-event queries,
for `e-1` first and `e-2` second, and returns exactly two entries pairing
each identifier with the articles fetched by its own query, in the same
order. -/
theorem c7_plain_two_identifiers :
    ∀ (er : ER) (kw co ca so la : Option (List String)) (ds de : Option Json)
      (sb : String) (sba : Bool) (mi : Int) (folder : Option (List Char))
      (fmt : Option String) (fs : FileSystem) (p content l1 l2 : List Char)
      (r : FromFileResult),
      p ≠ [] → readFile fs p = some content →
      readlines content = [l1, l2] →
      pstrip l1 = ('e' :: '-' :: '1' :: []) →
      pstrip l2 = ('e' :: '-' :: '2' :: []) →
      get_event_articles_from_file er (some p) "plain" kw co ca so la ds de sb sba mi folder fmt fs
        = Except.ok r →
      ∃ q1 q2, r.queries = [q1, q2] ∧
        q1.event_id = ('e' :: '-' :: '1' :: []) ∧
        q2.event_id = ('e' :: '-' :: '2' :: []) ∧
        r.entries.map EventArticlesEntry.event_id =
          [('e' :: '-' :: '1' :: []), ('e' :: '-' :: '2' :: [])] ∧
        r.entries.map EventArticlesEntry.articles =
          [er.execEventArticles q1 sb sba mi, er.execEventArticles q2 sb sba mi] := by
  intro er kw co ca so la ds de sb sba mi folder fmt fs p content l1 l2 r hp hread hlines hs1 hs2 h
  unfold get_event_articles_from_file at h
  dsimp only at h
  rw [if_neg (by simp [hp, isfile, hread])] at h
  rw [hread] at h
  simp only [Option.getD_some] at h
  rw [hlines] at h
  have hex : extract_event_ids "plain" [l1, l2] = Except.ok [pstrip l1, pstrip l2] := by
    simp [extract_event_ids]
  rw [if_neg (by simp)] at h
  simp only [bind, Except.bind] at h
  rw [hex, hs1, hs2] at h
  simp only [event_articles_loop, bind, Except.bind] at h
  split at h
  · exact absurd h (by simp)
  · rename_i r1 hloop
    have hr := Except.ok.inj h
    subst hr
    split at hloop
    · exact absurd hloop (by simp)
    · rename_i v1 h1
      split at hloop
      · exact absurd hloop (by simp)
      · rename_i v3 hmid
        have hr1 := Except.ok.inj hloop
        subst hr1
        split at hmid
        · exact absurd hmid (by simp)
        · rename_i v2 h2
          have hv3 := Except.ok.inj hmid
          subst hv3
          obtain ⟨hq1, ha1⟩ := get_event_articles_ok er _ kw co ca so la ds de sb sba mi _ fmt fs v1 h1
          obtain ⟨hq2, ha2⟩ := get_event_articles_ok er _ kw co ca so la ds de sb sba mi _ fmt v1.fs v2 h2
          refine ⟨v1.q, v2.q, rfl, ?_, ?_, ?_, ?_⟩
          · rw [hq1]
          · rw [hq2]
          · simp
          · simp only [List.map_cons, List.map_nil]
            rw [ha1, ha2]

/-- Witness for C6: the three failure modes at concrete inputs — a `None`
path, a path naming no file, and a path naming an empty file. -/
theorem c6_from_file_validation_witness :
    (get_event_articles_from_file erW none "plain" none none none none none none none
        "rel" false (-1) none none fsC6W = Except.error PyErr.eventIdsFileMissing) ∧
    (get_event_articles_from_file erW (some ("nope".data)) "plain" none none none none none
        none none "rel" false (-1) none none fsC6W = Except.error PyErr.eventIdsFileMissing) ∧
    (get_event_articles_from_file erW (some ("ids".data)) "plain" none none none none none
        none none "rel" false (-1) none none fsC6W = Except.error PyErr.eventIdsFileEmpty) :=
  ⟨(c6_from_file_validation erW "plain" none none none none none none none "rel" false (-1)
      none none fsC6W).1,
   (c6_from_file_validation erW "plain" none none none none none none none "rel" false (-1)
      none none fsC6W).2.1 ("nope".data) rfl,
   (c6_from_file_validation erW "plain" none none none none none none none "rel" false (-1)
      none none fsC6W).2.2 ("ids".data) (by decide) rfl⟩

/-- Witness for C8: a line carrying `uri` value `"  e-1 "` extracts to the
stripped identifier `e-1`. -/
theorem c8_events_line_uri_extraction_witness :
    extract_uri_id (Json.render uriObjW) = Except.ok (pstrip ("  e-1 ").data) ∧
    pstrip ("  e-1 ").data = "e-1".data :=
  ⟨c8_events_line_uri_extraction.1 (Json.render uriObjW) uriObjW "  e-1 " rfl rfl, rfl⟩

/-- Witness for C10: even with the save path naming an existing non-empty
file holding a date record, the per-event query keeps the supplied
(absent) date_start. -/
theorem c10_event_articles_no_resume_witness :
    (get_event_articles erW ("e-9".data) none none none none none none none "rel" false (-1)
        (some pathW) none fsW1
      = Except.ok ⟨⟨"e-9".data, none, none, none, none, none, none, none⟩, [],
          ⟨[(pathW, Json.render dateObjW ++ ['\n'])], ["d".data]⟩⟩) ∧
    ((⟨⟨"e-9".data, none, none, none, none, none, none, none⟩, [],
        ⟨[(pathW, Json.render dateObjW ++ ['\n'])], ["d".data]⟩⟩ :
        EventArticlesResult).q.dateStart = none) :=
  ⟨rfl,
   c10_event_articles_no_resume erW ("e-9".data) none none none none none none none "rel"
     false (-1) (some pathW) none fsW1
     ⟨⟨"e-9".data, none, none, none, none, none, none, none⟩, [],
       ⟨[(pathW, Json.render dateObjW ++ ['\n'])], ["d".data]⟩⟩ rfl⟩

/-- Witness for C2 at concrete filter sets: non-empty keywords/concepts
become AND clauses over the (resolved) items, a non-empty language list an
OR clause, and absent or empty category/source lists leave `None`. -/
theorem c2_filter_combination_witness :
    (get_articles erW (some ["a", "b"]) (some ["c"]) none (some []) (some ["en", "de"])
        none none "date" false (-1) none none fsEmptyW
      = Except.ok ⟨⟨some (QueryItems.AND ["a", "b"]), some (QueryItems.AND [some "c-c"]),
          none, none, none, none, some (QueryItems.OR ["en", "de"])⟩, [], fsEmptyW⟩) ∧
    ((⟨⟨some (QueryItems.AND ["a", "b"]), some (QueryItems.AND [some "c-c"]),
        none, none, none, none, some (QueryItems.OR ["en", "de"])⟩, [], fsEmptyW⟩ :
        ArticlesResult).q.keywords = some (QueryItems.AND ["a", "b"])) ∧
    ((⟨⟨some (QueryItems.AND ["a", "b"]), some (QueryItems.AND [some "c-c"]),
        none, none, none, none, some (QueryItems.OR ["en", "de"])⟩, [], fsEmptyW⟩ :
        ArticlesResult).q.conceptUri = some (QueryItems.AND (["c"].map erW.getConceptUri))) ∧
    ((⟨⟨some (QueryItems.AND ["a", "b"]), some (QueryItems.AND [some "c-c"]),
        none, none, none, none, some (QueryItems.OR ["en", "de"])⟩, [], fsEmptyW⟩ :
        ArticlesResult).q.sourceUri = none) ∧
    ((⟨⟨some (QueryItems.AND ["a", "b"]), some (QueryItems.AND [some "c-c"]),
        none, none, none, none, some (QueryItems.OR ["en", "de"])⟩, [], fsEmptyW⟩ :
        ArticlesResult).q.lang = some (QueryItems.OR ["en", "de"])) ∧
    ((⟨⟨some (QueryItems.AND ["a", "b"]), some (QueryItems.AND [some "c-c"]),
        none, none, none, none, some (QueryItems.OR ["en", "de"])⟩, [], fsEmptyW⟩ :
        ArticlesResult).q.categoryUri = none) ∧
    (get_events erW (some ["x"]) none none none none none none "date" false (-1) none none
        fsEmptyW
      = Except.ok ⟨⟨some (QueryItems.AND ["x"]), none, none, none, none, none, none⟩, [],
          fsEmptyW⟩) ∧
    ((⟨⟨some (QueryItems.AND ["x"]), none, none, none, none, none, none⟩, [], fsEmptyW⟩ :
        EventsResult).q.keywords = some (QueryItems.AND ["x"])) := by
  have h := c2_filter_combination.1 erW (some ["a", "b"]) (some ["c"]) none (some [])
    (some ["en", "de"]) none none "date" false (-1) none none fsEmptyW
    ⟨⟨some (QueryItems.AND ["a", "b"]), some (QueryItems.AND [some "c-c"]),
      none, none, none, none, some (QueryItems.OR ["en", "de"])⟩, [], fsEmptyW⟩ rfl
  obtain ⟨kN, kS, cN, cS, gN, gS, sN, sS, lN, lS⟩ := h
  have h2 := c2_filter_combination.2 erW (some ["x"]) none none none none none none "date"
    false (-1) none none fsEmptyW
    ⟨⟨some (QueryItems.AND ["x"]), none, none, none, none, none, none⟩, [], fsEmptyW⟩ rfl
  exact ⟨rfl, kS "a" ["b"] rfl, cS "c" [] rfl, sN (Or.inr rfl), lS "en" ["de"] rfl,
    gN (Or.inl rfl), rfl, h2.2.1 "x" [] rfl⟩

/-- Witness for C1: a one-line file whose record holds date `2023-05-01`
overrides the articles date_start; a missing file leaves the supplied
events date_start unchanged. -/
theorem c1_date_start_resume_witness :
    (get_articles erW none none none none none none none "date" false (-1)
        (some pathW) none fsW1
      = Except.ok ⟨⟨none, none, none, none, some (Json.str "2023-05-01"), none, none⟩, [],
          ⟨[(pathW, Json.render dateObjW ++ ['\n'])], ["d".data]⟩⟩) ∧
    ((⟨⟨none, none, none, none, some (Json.str "2023-05-01"), none, none⟩, [],
        ⟨[(pathW, Json.render dateObjW ++ ['\n'])], ["d".data]⟩⟩ :
        ArticlesResult).q.dateStart = some (Json.str "2023-05-01")) ∧
    (get_events erW none none none none none (some (Json.str "2020-01-01")) none "date"
        false (-1) (some pathW) none fsEmptyW
      = Except.ok ⟨⟨none, none, none, none, some (Json.str "2020-01-01"), none, none⟩, [],
          ⟨[(pathW, [])], ["d".data]⟩⟩) ∧
    ((⟨⟨none, none, none, none, some (Json.str "2020-01-01"), none, none⟩, [],
        ⟨[(pathW, [])], ["d".data]⟩⟩ : EventsResult).q.dateStart
      = some (Json.str "2020-01-01")) :=
  ⟨rfl,
   c1_date_start_resume.1 erW none none none none none none none "date" false (-1) none fsW1
     pathW (Json.render dateObjW ++ ['\n']) (Json.render dateObjW ++ ['\n']) dateObjW
     (Json.str "2023-05-01")
     ⟨⟨none, none, none, none, some (Json.str "2023-05-01"), none, none⟩, [],
       ⟨[(pathW, Json.render dateObjW ++ ['\n'])], ["d".data]⟩⟩
     (by decide) rfl rfl rfl rfl rfl,
   rfl,
   c1_date_start_resume.2.2.2 erW none none none none none (some (Json.str "2020-01-01"))
     none "date" false (-1) none fsEmptyW pathW
     ⟨⟨none, none, none, none, some (Json.str "2020-01-01"), none, none⟩, [],
       ⟨[(pathW, [])], ["d".data]⟩⟩
     (Or.inr (Or.inl rfl)) rfl⟩

/-- Witness for C7: a two-line plain identifiers file produces the two
queries and two paired entries in order. -/
theorem c7_plain_two_identifiers_witness :
    (get_event_articles_from_file erW (some ("ids".data)) "plain" none none none none none
        none none "rel" false (-1) none none fsC7W
      = Except.ok ⟨[⟨"e-1".data, []⟩, ⟨"e-2".data, []⟩],
          [⟨"e-1".data, none, none, none, none, none, none, none⟩,
           ⟨"e-2".data, none, none, none, none, none, none, none⟩], fsC7W⟩) ∧
    (∃ q1 q2,
      (⟨[⟨"e-1".data, []⟩, ⟨"e-2".data, []⟩],
        [⟨"e-1".data, none, none, none, none, none, none, none⟩,
         ⟨"e-2".data, none, none, none, none, none, none, none⟩], fsC7W⟩ :
        FromFileResult).queries = [q1, q2] ∧
      q1.event_id = ('e' :: '-' :: '1' :: []) ∧
      q2.event_id = ('e' :: '-' :: '2' :: []) ∧
      (⟨[⟨"e-1".data, []⟩, ⟨"e-2".data, []⟩],
        [⟨"e-1".data, none, none, none, none, none, none, none⟩,
         ⟨"e-2".data, none, none, none, none, none, none, none⟩], fsC7W⟩ :
        FromFileResult).entries.map EventArticlesEntry.event_id =
        [('e' :: '-' :: '1' :: []), ('e' :: '-' :: '2' :: [])] ∧
      (⟨[⟨"e-1".data, []⟩, ⟨"e-2".data, []⟩],
        [⟨"e-1".data, none, none, none, none, none, none, none⟩,
         ⟨"e-2".data, none, none, none, none, none, none, none⟩], fsC7W⟩ :
        FromFileResult).entries.map EventArticlesEntry.articles =
        [erW.execEventArticles q1 "rel" false (-1), erW.execEventArticles q2 "rel" false (-1)]) :=
  ⟨rfl,
   c7_plain_two_identifiers erW none none none none none none none "rel" false (-1) none none
     fsC7W ("ids".data) ("e-1\ne-2\n".data) ("e-1\n".data) ("e-2\n".data)
     ⟨[⟨"e-1".data, []⟩, ⟨"e-2".data, []⟩],
      [⟨"e-1".data, none, none, none, none, none, none, none⟩,
       ⟨"e-2".data, none, none, none, none, none, none, none⟩], fsC7W⟩
     (by decide) rfl rfl rfl rfl rfl⟩

/-- Witness for C4: two serializable records written over an absent file
yield a two-line file in order, each line one rendered record. -/
theorem c4_line_format_layout_witness :
    (save_result_in_file fsEmptyW ([dateObjW, Json.obj JsonMembers.nil].map Record.ser)
        pathW none
      = Except.ok ⟨[(pathW,
          Json.render dateObjW ++ ['\n'] ++ (Json.render (Json.obj JsonMembers.nil) ++ ['\n']))],
          ["d".data]⟩) ∧
    (∃ content2,
      readFile ⟨[(pathW,
          Json.render dateObjW ++ ['\n'] ++ (Json.render (Json.obj JsonMembers.nil) ++ ['\n']))],
          ["d".data]⟩ pathW = some content2 ∧
      readlines content2 =
        [dateObjW, Json.obj JsonMembers.nil].map (fun j => Json.render j ++ ['\n']) ∧
      (readlines content2).length = ([dateObjW, Json.obj JsonMembers.nil] : List Json).length ∧
      ∀ line ∈ readlines content2,
        ∃ jl, line = Json.render jl ++ ['\n'] ∧ loads line = some jl) :=
  ⟨rfl,
   c4_line_format_layout fsEmptyW [dateObjW, Json.obj JsonMembers.nil] pathW
     ⟨[(pathW,
        Json.render dateObjW ++ ['\n'] ++ (Json.render (Json.obj JsonMembers.nil) ++ ['\n']))],
        ["d".data]⟩
     (Or.inl rfl) rfl⟩
